import Mathlib

/-!
Shallow embedding of the transportation-mode classification subsystem of
`src/js/firestore-browser.js` (percentile, heading-change sequence, stop
detection, the four classifiers, confusion-matrix construction), together
with proofs settling the frozen claims about it.

Modelling conventions:
* JavaScript numbers are modelled as exact rationals (`ℚ`).  A value that
  may be `undefined`/`NaN` is modelled as `Option ℚ` with `none` standing
  for the absent/NaN case; comparisons against `none` are `false` and
  arithmetic on `none` propagates `none`, matching `undefined`/`NaN`
  semantics in the source.
* `Math.PI` is kept as a parameter `pi` (with the hypothesis `0 < pi`
  where it matters): the source's constant is a real-number stand-in, and
  every theorem below holds for all positive `pi`, in particular for the
  real π.
* `getDistanceBetweenPoints` (the Haversine formula) involves
  transcendental functions, so it is kept abstract as a parameter
  `dist : Sample → Sample → ℚ`; every theorem that touches it is proved
  for all such functions.
* `Array.prototype.sort` with the numeric comparator `(a, b) => a - b`
  sorts the numeric entries ascending and moves all `undefined` entries
  to the end of the array; `jsort` models exactly that (own-property
  object semantics, the only case the claims exercise).
-/

/-- One GPS fix as consumed by the classifiers.  Fields that the source
reads but that may be absent on a given sample are `Option`-valued. -/
structure Sample where
  latitude : ℚ
  longitude : ℚ
  timestamp : ℚ
  speed : Option ℚ
  speedKmh : Option ℚ
  heading : Option ℚ
deriving Repr, DecidableEq, Inhabited

/-- A detected stop, as produced by `findStops`. -/
structure Stop where
  startIndex : ℕ
  endIndex : ℕ
  duration : ℚ
  distance : ℚ
deriving Repr, DecidableEq, Inhabited

/-- `a < b` on a possibly-NaN/undefined left operand: false for `none`,
matching JS comparison semantics with NaN/undefined. -/
def jlt (a : Option ℚ) (b : ℚ) : Bool :=
  match a with
  | some x => decide (x < b)
  | none => false

/-- `a > b` on a possibly-NaN/undefined left operand. -/
def jgt (a : Option ℚ) (b : ℚ) : Bool :=
  match a with
  | some x => decide (b < x)
  | none => false

/-- NaN-propagating addition. -/
def jadd (a b : Option ℚ) : Option ℚ :=
  match a, b with
  | some x, some y => some (x + y)
  | _, _ => none

/-- NaN-propagating subtraction. -/
def jsub (a b : Option ℚ) : Option ℚ :=
  match a, b with
  | some x, some y => some (x - y)
  | _, _ => none

/-- `Math.max(...values)` over a spread array: NaN if any entry is
NaN/undefined.  The empty case (JS `-Infinity`) is unreachable behind the
callers' emptiness guards and is modelled as `none`. -/
def jmax : List (Option ℚ) → Option ℚ
  | [] => none
  | x :: xs =>
      xs.foldl
        (fun acc y =>
          match acc, y with
          | some a, some b => some (max a b)
          | _, _ => none)
        x

/-- Mathematical maximum of a list of rationals (head-seeded fold; the
`[]` value is junk, all uses are guarded by nonemptiness). -/
def listMax : List ℚ → ℚ
  | [] => 0
  | x :: xs => xs.foldl max x

/-- Mathematical minimum of a list of rationals (same convention). -/
def listMin : List ℚ → ℚ
  | [] => 0
  | x :: xs => xs.foldl min x

/-- `[...arr].sort((a, b) => a - b)` on an array whose entries are numbers
or `undefined`: numeric entries ascending, `undefined` entries moved to
the end. -/
def jsort (arr : List (Option ℚ)) : List (Option ℚ) :=
  ((arr.filterMap id).insertionSort (· ≤ ·)).map some
    ++ arr.filter (fun x => x.isNone)

/-- `percentile(arr, p)` from the source: sort a copy, select index
`ceil(p/100 * n) - 1` clamped below at 0.  Reading past the end of the
array yields `undefined` (`none`), exactly as in JS. -/
def percentile (arr : List (Option ℚ)) (p : ℚ) : Option ℚ :=
  let sorted := jsort arr
  let index : ℤ := (p / 100 * (sorted.length : ℚ)).ceil - 1
  sorted.getD (max 0 index).toNat none

/-- Speed resolution in `findStops`: use `speed` (m/s) when present, else
`speedKmh / 3.6`, else 0. -/
def sampleSpeed (s : Sample) : ℚ :=
  match s.speed with
  | some v => v
  | none =>
    match s.speedKmh with
    | some k => k / (18 / 5)
    | none => 0

/-- `baselineClassify`: bucket the maximum `speedKmh` of the trajectory. -/
def baselineClassify (speedData : List Sample) : String :=
  if speedData.length = 0 then "unknown"
  else
    let speeds := speedData.map (fun p => p.speedKmh)
    let maxSpeed := jmax speeds
    if jlt maxSpeed 7 then "walking"
    else if jlt maxSpeed 25 then "cycling"
    else if jlt maxSpeed 80 then "bus-or-car"
    else if jlt maxSpeed 200 then "train"
    else "unknown"

/-- `percentile95Classify`: same buckets on the 95th percentile of
`speedKmh`. -/
def percentile95Classify (speedData : List Sample) : String :=
  if speedData.length = 0 then "unknown"
  else
    let speeds := speedData.map (fun p => p.speedKmh)
    let p95Speed := percentile speeds 95
    if jlt p95Speed 7 then "walking"
    else if jlt p95Speed 25 then "cycling"
    else if jlt p95Speed 80 then "bus-or-car"
    else if jlt p95Speed 200 then "train"
    else "unknown"

/-- The scanning loop of `findStops`.  `points` is the full trajectory
(for the index lookups in the pushed records), the fourth argument is the
not-yet-visited suffix `points.drop i`, `i` the current index, then
`stopStart` and the accumulated `stops`.  The current sample `p` is
`points[i]`. -/
def findStopsAux (dist : Sample → Sample → ℚ) (points : List Sample)
    (thr : ℚ) : List Sample → ℕ → Option ℕ → List Stop → List Stop
  | [], _, stopStart, stops =>
    match stopStart with
    | none => stops
    | some s =>
      let lastIndex := points.length - 1
      stops ++
        [{ startIndex := s, endIndex := lastIndex,
           duration :=
             ((points.getD lastIndex default).timestamp
               - (points.getD s default).timestamp) / 1000,
           distance :=
             if 0 < s then
               dist (points.getD (s - 1) default) (points.getD lastIndex default)
             else 0 }]
  | p :: rest, i, stopStart, stops =>
    if sampleSpeed p < thr then
      match stopStart with
      | none => findStopsAux dist points thr rest (i + 1) (some i) stops
      | some _ => findStopsAux dist points thr rest (i + 1) stopStart stops
    else
      match stopStart with
      | none => findStopsAux dist points thr rest (i + 1) none stops
      | some s =>
        let st : Stop :=
          { startIndex := s, endIndex := i - 1,
            duration :=
              ((points.getD (i - 1) default).timestamp
                - (points.getD s default).timestamp) / 1000,
            distance :=
              if 0 < s then dist (points.getD (s - 1) default) p else 0 }
        findStopsAux dist points thr rest (i + 1) none (stops ++ [st])

/-- `findStops(points, speedThreshold = 0.5)`: maximal runs of
consecutive samples whose resolved speed is below the threshold. -/
def findStops (dist : Sample → Sample → ℚ) (points : List Sample)
    (thr : ℚ := 1 / 2) : List Stop :=
  findStopsAux dist points thr points 0 none []

/-- Sum of consecutive pairwise distances (the `totalDistance` loop in
`stopPatternClassify`). -/
def totalPathDistance (dist : Sample → Sample → ℚ) : List Sample → ℚ
  | a :: b :: rest => dist a b + totalPathDistance dist (b :: rest)
  | _ => 0

/-- `stopPatternClassify`.  The `totalDistance = 0` disjunct models the
JS quotient `stops.length / 0 = Infinity > 1` (here `stops.length ≥ 1`),
which `ℚ` (where `x / 0 = 0`) cannot express directly. -/
def stopPatternClassify (dist : Sample → Sample → ℚ)
    (gpsData : List Sample) : Option String :=
  if gpsData.length = 0 then none
  else
    let stops := findStops dist gpsData
    let speeds := gpsData.map (fun p => p.speedKmh)
    let maxSpeed := jmax speeds
    if jlt maxSpeed 25 || jgt maxSpeed 80 then none
    else if stops.length = 0 then some "car"
    else
      let totalDistance := totalPathDistance dist gpsData
      let avgDistanceBetweenStops := totalDistance / max 1 (stops.length : ℚ)
      let stopFrequency := (stops.length : ℚ) / (totalDistance / 1000)
      let isBusRange :=
        300 < avgDistanceBetweenStops ∧ avgDistanceBetweenStops < 1000
      if totalDistance = 0 ∨ 1 < stopFrequency then some "bus"
      else if isBusRange ∧ 2 ≤ stops.length then some "bus"
      else some "car"

/-- First normalization loop of `calculateHeadingChanges`:
`while (change > π) change -= 2π`.  Guarded by `0 < pi` so that the loop
terminates for every rational `pi`; the source's `Math.PI` is positive. -/
def normLoopDown (pi : ℚ) (c : ℚ) : ℚ :=
  if h : 0 < pi ∧ pi < c then normLoopDown pi (c - 2 * pi) else c
termination_by (⌈(c - pi) / (2 * pi)⌉).toNat
decreasing_by
  obtain ⟨hpi, hc⟩ := h
  have h2pi : (0 : ℚ) < 2 * pi := by linarith
  have harg : (c - 2 * pi - pi) / (2 * pi) = (c - pi) / (2 * pi) - 1 := by
    field_simp
    ring
  have hr : (0 : ℚ) < (c - pi) / (2 * pi) := div_pos (by linarith) h2pi
  have hceil : 0 < ⌈(c - pi) / (2 * pi)⌉ := Int.ceil_pos.mpr hr
  rw [harg, Int.ceil_sub_one]
  omega

/-- Second normalization loop: `while (change < -π) change += 2π`. -/
def normLoopUp (pi : ℚ) (c : ℚ) : ℚ :=
  if h : 0 < pi ∧ c < -pi then normLoopUp pi (c + 2 * pi) else c
termination_by (⌈(-pi - c) / (2 * pi)⌉).toNat
decreasing_by
  obtain ⟨hpi, hc⟩ := h
  have h2pi : (0 : ℚ) < 2 * pi := by linarith
  have harg : (-pi - (c + 2 * pi)) / (2 * pi) = (-pi - c) / (2 * pi) - 1 := by
    field_simp
    ring
  have hr : (0 : ℚ) < (-pi - c) / (2 * pi) := div_pos (by linarith) h2pi
  have hceil : 0 < ⌈(-pi - c) / (2 * pi)⌉ := Int.ceil_pos.mpr hr
  rw [harg, Int.ceil_sub_one]
  omega

/-- Both loops in source order: normalize a heading difference into
`[-pi, pi]`. -/
def jsNormalizeRad (pi c : ℚ) : ℚ :=
  normLoopUp pi (normLoopDown pi c)

/-- Body of the `calculateHeadingChanges` loop for one consecutive pair:
`|normalize(cur.heading - prev.heading)|`, `none` (NaN) when either
heading is absent. -/
def hcStep (pi : ℚ) (prev cur : Sample) : Option ℚ :=
  match cur.heading, prev.heading with
  | some h2, some h1 => some |jsNormalizeRad pi (h2 - h1)|
  | _, _ => none

/-- `calculateHeadingChanges(points)`: one entry per consecutive pair. -/
def calculateHeadingChanges (pi : ℚ) : List Sample → List (Option ℚ)
  | p :: q :: rest => hcStep pi p q :: calculateHeadingChanges pi (q :: rest)
  | _ => []

/-- `reduce((a, b) => a + b)` with no initial value; the `[]` case throws
in JS and is unreachable behind the source's length guard. -/
def jsum : List (Option ℚ) → Option ℚ
  | [] => none
  | x :: xs => xs.foldl jadd x

/-- `Math.sqrt v < t` for a NaN-aware `v`: false on NaN, and for
`v, t ≥ 0` equivalent to `v < t * t` (a negative `v` would give
`sqrt v = NaN`, hence false). -/
def jsqrtLt (v : Option ℚ) (t : ℚ) : Bool :=
  match v with
  | some x => decide (0 ≤ x ∧ x < t * t)
  | none => false

/-- `Math.sqrt v > t`, same conventions. -/
def jsqrtGt (v : Option ℚ) (t : ℚ) : Bool :=
  match v with
  | some x => decide (0 ≤ x ∧ t * t < x)
  | none => false

/-- `headingChangeClassify`. -/
def headingChangeClassify (pi : ℚ) (gpsData : List Sample) : Option String :=
  if gpsData.length < 2 then none
  else
    let headingChanges := calculateHeadingChanges pi gpsData
    if headingChanges.length = 0 then none
    else
      let headingChangesDegrees :=
        headingChanges.map (Option.map (fun c => c * 180 / pi))
      let meanHeadingChange :=
        (jsum headingChangesDegrees).map
          (fun s => s / (headingChangesDegrees.length : ℚ))
      let varianceSum :=
        headingChangesDegrees.foldl
          (fun s c => jadd s ((jsub c meanHeadingChange).map (fun d => d * d)))
          (some 0)
      let variance :=
        varianceSum.map (fun s => s / (headingChangesDegrees.length : ℚ))
      if jlt meanHeadingChange 3 && jsqrtLt variance 15 then some "fixed-route"
      else if jgt meanHeadingChange 5 || jsqrtGt variance 20 then
        some "variable-route"
      else some "uncertain"

/-- The heading-change series converted to degrees, as a plain rational
list (meaningful when every sample carries a heading). -/
def headingDegSeries (pi : ℚ) (gps : List Sample) : List ℚ :=
  ((calculateHeadingChanges pi gps).filterMap id).map (fun c => c * 180 / pi)

/-- Mean of the degree series. -/
def headingMeanDeg (pi : ℚ) (gps : List Sample) : ℚ :=
  (headingDegSeries pi gps).sum / ((headingDegSeries pi gps).length : ℚ)

/-- Population variance of the degree series. -/
def headingVarDeg (pi : ℚ) (gps : List Sample) : ℚ :=
  ((headingDegSeries pi gps).map
      (fun c => (c - headingMeanDeg pi gps) * (c - headingMeanDeg pi gps))).sum
    / ((headingDegSeries pi gps).length : ℚ)

/-- The fixed five-mode vocabulary of `buildConfusionMatrix`. -/
def modes : List String := ["walking", "cycling", "bus", "car", "train"]

/-- One `{actual, predicted}` pair; the empty string models a falsy
(absent) label. -/
structure PredPair where
  actual : String
  predicted : String
deriving Repr, DecidableEq

/-- A matrix row: predicted-label keys to counts, `none` for a NaN cell
(created by `undefined++`). -/
abbrev CMRow := List (String × Option ℤ)

/-- The confusion matrix: actual-label keys to rows (own-property object
semantics). -/
abbrev CMatrix := List (String × CMRow)

/-- A fresh all-zero row over the vocabulary. -/
def emptyCMRow : CMRow := modes.map (fun m => (m, some 0))

/-- The all-zero `modes × modes` matrix the source initializes. -/
def initialCMatrix : CMatrix := modes.map (fun a => (a, emptyCMRow))

/-- `row[k]++`: increment an existing cell (NaN stays NaN), or create the
key with `undefined++ = NaN` when absent. -/
def bumpRow (row : CMRow) (k : String) : CMRow :=
  match row.find? (fun e => e.1 == k) with
  | some _ =>
      row.map (fun e => if e.1 == k then (e.1, e.2.map (fun n => n + 1)) else e)
  | none => row ++ [(k, none)]

/-- One iteration of the accumulation loop:
`if (pred.actual && pred.predicted) matrix[pred.actual][pred.predicted]++`.
Reading a property of the undefined `matrix[pred.actual]` throws a
TypeError. -/
def recordPred (m : CMatrix) (q : PredPair) : Except String CMatrix :=
  if q.actual = "" ∨ q.predicted = "" then .ok m
  else
    match m.find? (fun e => e.1 == q.actual) with
    | none => .error "TypeError"
    | some _ =>
        .ok (m.map (fun e =>
          if e.1 == q.actual then (e.1, bumpRow e.2 q.predicted) else e))

/-- `buildConfusionMatrix(predictions)`. -/
def buildConfusionMatrix (preds : List PredPair) : Except String CMatrix :=
  preds.foldlM recordPred initialCMatrix

/-- Cell lookup: `some` of the stored cell when both keys exist. -/
def matCell (m : CMatrix) (a p : String) : Option (Option ℤ) :=
  match m.find? (fun e => e.1 == a) with
  | some row =>
      match row.2.find? (fun e => e.1 == p) with
      | some c => some c.2
      | none => none
  | none => none

/-- NaN-propagating integer addition for cell sums. -/
def jaddZ (a b : Option ℤ) : Option ℤ :=
  match a, b with
  | some x, some y => some (x + y)
  | _, _ => none

/-- Total cell sum of a matrix, `none` if any cell is NaN. -/
def cellSum (m : CMatrix) : Option ℤ :=
  m.foldl (fun acc row => row.2.foldl (fun a c => jaddZ a c.2) acc) (some 0)

/-- Closed form of the matrix after processing a list of in-vocabulary
pairs: cell `(a, p)` holds the number of pairs `{actual: a, predicted:
p}`. -/
def countsMatrix (preds : List PredPair) : CMatrix :=
  modes.map (fun a =>
    (a, modes.map (fun p =>
      (p, some ((preds.countP
        (fun q => q.actual == a && q.predicted == p) : ℤ))))))

-- ===========================================================================
-- Theorems
-- ===========================================================================

/-- The executable ceiling on `ℚ` agrees with the mathematical one
(`Math.ceil` in the source); stated once and used to reason with
`Int.ceil` lemmas. -/
theorem ratCeil_eq_intCeil (q : ℚ) : q.ceil = ⌈q⌉ := by
  have hfloor : ∀ r : ℚ, ⌊r⌋ = Rat.floor r := fun _ => rfl
  have hspec : ∀ z : ℤ, q.ceil ≤ z ↔ q ≤ (z : ℚ) := by
    intro z
    unfold Rat.ceil
    by_cases hden : q.den = 1
    · have hq : (q.num : ℚ) = q := (Rat.den_eq_one_iff q).mp hden
      simp only [hden, if_pos]
      rw [← hq]
      exact_mod_cast Iff.rfl
    · have hfl : q.num / (q.den : ℤ) = ⌊q⌋ := (Rat.floor_def).symm
      simp only [hden, if_neg, hfl, ite_false]
      constructor
      · intro h
        have h1 : ⌊q⌋ < z := by omega
        have := (Int.floor_lt).mp h1
        exact le_of_lt this
      · intro h
        have hne : q ≠ (z : ℚ) := by
          intro hEq
          apply hden
          rw [hEq]
          exact Rat.den_intCast z
        have hlt : q < (z : ℚ) := lt_of_le_of_ne h hne
        have := (Int.floor_lt).mpr hlt
        omega
  refine le_antisymm ?_ ?_
  · exact (hspec ⌈q⌉).mpr (Int.le_ceil q)
  · exact Int.ceil_le.mpr ((hspec q.ceil).mp le_rfl)


-- ===========================================================================
-- Helper lemmas about the fold-based maximum/minimum
-- ===========================================================================

theorem foldl_max_le_self (xs : List ℚ) (a : ℚ) :
    a ≤ xs.foldl max a ∧ ∀ v ∈ xs, v ≤ xs.foldl max a := by
  induction xs generalizing a with
  | nil => simp
  | cons x xs ih =>
    have h := ih (max a x)
    refine ⟨le_trans (le_max_left a x) h.1, ?_⟩
    intro v hv
    rcases List.mem_cons.mp hv with h1 | h1
    · subst h1
      exact le_trans (le_max_right a v) h.1
    · exact h.2 v h1

theorem foldl_max_mem (xs : List ℚ) (a : ℚ) :
    xs.foldl max a = a ∨ xs.foldl max a ∈ xs := by
  induction xs generalizing a with
  | nil => left; rfl
  | cons x xs ih =>
    rcases ih (max a x) with h | h
    · simp only [List.foldl_cons] at *
      rcases max_choice a x with he | he
      · left; rw [h, he]
      · right; rw [h, he]; exact List.mem_cons_self x xs
    · right
      exact List.mem_cons_of_mem x h

theorem le_listMax {l : List ℚ} {v : ℚ} (hv : v ∈ l) : v ≤ listMax l := by
  cases l with
  | nil => cases hv
  | cons x xs =>
    rcases List.mem_cons.mp hv with h | h
    · subst h; exact (foldl_max_le_self xs v).1
    · exact (foldl_max_le_self xs x).2 v h

theorem listMax_mem {l : List ℚ} (hl : l ≠ []) : listMax l ∈ l := by
  cases l with
  | nil => exact absurd rfl hl
  | cons x xs =>
    rcases foldl_max_mem xs x with h | h
    · rw [listMax, h]; exact List.mem_cons_self x xs
    · exact List.mem_cons_of_mem x h

theorem foldl_min_le_self (xs : List ℚ) (a : ℚ) :
    xs.foldl min a ≤ a ∧ ∀ v ∈ xs, xs.foldl min a ≤ v := by
  induction xs generalizing a with
  | nil => simp
  | cons x xs ih =>
    have h := ih (min a x)
    refine ⟨le_trans h.1 (min_le_left a x), ?_⟩
    intro v hv
    rcases List.mem_cons.mp hv with h1 | h1
    · subst h1
      exact le_trans h.1 (min_le_right a v)
    · exact h.2 v h1

theorem foldl_min_mem (xs : List ℚ) (a : ℚ) :
    xs.foldl min a = a ∨ xs.foldl min a ∈ xs := by
  induction xs generalizing a with
  | nil => left; rfl
  | cons x xs ih =>
    rcases ih (min a x) with h | h
    · simp only [List.foldl_cons] at *
      rcases min_choice a x with he | he
      · left; rw [h, he]
      · right; rw [h, he]; exact List.mem_cons_self x xs
    · right
      exact List.mem_cons_of_mem x h

theorem listMin_le {l : List ℚ} {v : ℚ} (hv : v ∈ l) : listMin l ≤ v := by
  cases l with
  | nil => cases hv
  | cons x xs =>
    rcases List.mem_cons.mp hv with h | h
    · subst h; exact (foldl_min_le_self xs v).1
    · exact (foldl_min_le_self xs x).2 v h

theorem listMin_mem {l : List ℚ} (hl : l ≠ []) : listMin l ∈ l := by
  cases l with
  | nil => exact absurd rfl hl
  | cons x xs =>
    rcases foldl_min_mem xs x with h | h
    · rw [listMin, h]; exact List.mem_cons_self x xs
    · exact List.mem_cons_of_mem x h

theorem jmax_map_some (l : List ℚ) (hl : l ≠ []) :
    jmax (l.map some) = some (listMax l) := by
  cases l with
  | nil => exact absurd rfl hl
  | cons x xs =>
    show (xs.map some).foldl _ (some x) = some (xs.foldl max x)
    induction xs generalizing x with
    | nil => rfl
    | cons y ys ih => exact ih (max x y) (by simp)

theorem foldl_jmax_none (ys : List (Option ℚ)) :
    ys.foldl
      (fun acc y =>
        match acc, y with
        | some a, some b => some (max a b)
        | _, _ => none)
      none = none := by
  induction ys with
  | nil => rfl
  | cons y ys ih => exact ih

theorem jmax_all_none {l : List (Option ℚ)} (hl : l ≠ [])
    (h : ∀ x ∈ l, x = none) : jmax l = none := by
  cases l with
  | nil => exact absurd rfl hl
  | cons x xs =>
    have hx : x = none := h x (List.mem_cons_self x xs)
    subst hx
    exact foldl_jmax_none xs

theorem map_eq_filterMap_map_some (l : List Sample) (f : Sample → Option ℚ)
    (h : ∀ x ∈ l, (f x).isSome) :
    l.map f = (l.filterMap f).map some := by
  induction l with
  | nil => rfl
  | cons x xs ih =>
    obtain ⟨v, hv⟩ := Option.isSome_iff_exists.mp (h x (List.mem_cons_self x xs))
    have hxs := ih (fun y hy => h y (List.mem_cons_of_mem x hy))
    simp [List.filterMap_cons, hv, hxs]

theorem filterMap_length_of_all_isSome (l : List Sample) (f : Sample → Option ℚ)
    (h : ∀ x ∈ l, (f x).isSome) :
    (l.filterMap f).length = l.length := by
  have := congrArg List.length (map_eq_filterMap_map_some l f h)
  simpa using this.symm

-- ===========================================================================
-- C4: baseline classifier buckets
-- ===========================================================================

/-- C4: `baselineClassify` takes the maximum `speedKmh` over the
trajectory and buckets it at 7/25/80/200 km/h into
walking/cycling/bus-or-car/train, with `unknown` at ≥ 200; the empty
trajectory gives `unknown` without error, and an all-zero-speed
trajectory gives `walking`. -/
theorem baselineClassify_buckets (gps : List Sample) :
    (gps = [] → baselineClassify gps = "unknown") ∧
    ((∀ s ∈ gps, s.speedKmh.isSome) → gps ≠ [] →
      baselineClassify gps =
        (if listMax (gps.filterMap (fun p => p.speedKmh)) < 7 then "walking"
         else if listMax (gps.filterMap (fun p => p.speedKmh)) < 25 then "cycling"
         else if listMax (gps.filterMap (fun p => p.speedKmh)) < 80 then "bus-or-car"
         else if listMax (gps.filterMap (fun p => p.speedKmh)) < 200 then "train"
         else "unknown")) ∧
    (gps ≠ [] → (∀ s ∈ gps, s.speedKmh = some 0) →
      baselineClassify gps = "walking") := by
  refine ⟨fun h => by subst h; rfl, ?_, ?_⟩
  · intro hsome hne
    have hlen : ¬ gps.length = 0 := by
      simpa [List.length_eq_zero] using hne
    have hmap := map_eq_filterMap_map_some gps (fun p => p.speedKmh) hsome
    have hfne : gps.filterMap (fun p => p.speedKmh) ≠ [] := by
      intro habs
      apply hne
      have := filterMap_length_of_all_isSome gps (fun p => p.speedKmh) hsome
      rw [habs] at this
      simpa [List.length_eq_zero] using this.symm
    have hmax := jmax_map_some _ hfne
    unfold baselineClassify
    rw [if_neg hlen]
    simp only [hmap, hmax, jlt, decide_eq_true_eq]
  · intro hne hzero
    have hsome : ∀ s ∈ gps, s.speedKmh.isSome := by
      intro s hs
      rw [hzero s hs]
      rfl
    have hmem0 : ∀ v ∈ gps.filterMap (fun p => p.speedKmh), v = 0 := by
      intro v hv
      obtain ⟨s, hs, hfs⟩ := List.mem_filterMap.mp hv
      rw [hzero s hs] at hfs
      exact (Option.some_inj.mp hfs).symm
    have hfne : gps.filterMap (fun p => p.speedKmh) ≠ [] := by
      intro habs
      apply hne
      have := filterMap_length_of_all_isSome gps (fun p => p.speedKmh) hsome
      rw [habs] at this
      simpa [List.length_eq_zero] using this.symm
    have hmax0 : listMax (gps.filterMap (fun p => p.speedKmh)) = 0 :=
      hmem0 _ (listMax_mem hfne)
    have h2 := (map_eq_filterMap_map_some gps (fun p => p.speedKmh) hsome)
    have hlen : ¬ gps.length = 0 := by
      simpa [List.length_eq_zero] using hne
    unfold baselineClassify
    rw [if_neg hlen]
    simp only [h2, jmax_map_some _ hfne, hmax0, jlt, decide_eq_true_eq]
    norm_num

/-- Witness for C4 at a concrete one-sample cycling trajectory. -/
theorem baselineClassify_buckets_witness :
    baselineClassify
      [{ latitude := 0, longitude := 0, timestamp := 0, speed := none,
         speedKmh := some 10, heading := none }] = "cycling" := by
  have h := (baselineClassify_buckets
    [{ latitude := 0, longitude := 0, timestamp := 0, speed := none,
       speedKmh := some 10, heading := none }]).2.1
    (by intro s hs; rw [List.mem_singleton] at hs; subst hs; rfl)
    (by simp)
  rw [h]
  norm_num [listMax, List.filterMap_cons, List.filterMap_nil]

-- ===========================================================================
-- C2 / C7: stop-pattern classifier
-- ===========================================================================

/-- C2 (amended): the applicability guard of `stopPatternClassify` is
`maxSpeed < 25 || maxSpeed > 80`: every non-empty trajectory whose
maximum `speedKmh` is below 25 or strictly above 80 km/h yields `null`;
a maximum of exactly 80 km/h is inside the guard and proceeds. -/
theorem stopPattern_guard (dist : Sample → Sample → ℚ) (gps : List Sample)
    (m : ℚ) (hne : gps ≠ [])
    (hm : jmax (gps.map (fun p => p.speedKmh)) = some m)
    (hout : m < 25 ∨ 80 < m) :
    stopPatternClassify dist gps = none := by
  have hlen : ¬ gps.length = 0 := by
    simpa [List.length_eq_zero] using hne
  unfold stopPatternClassify
  rw [if_neg hlen]
  have hguard : (jlt (jmax (gps.map (fun p => p.speedKmh))) 25
      || jgt (jmax (gps.map (fun p => p.speedKmh))) 80) = true := by
    rw [hm]
    rcases hout with h | h
    · simp [jlt, h]
    · simp [jgt, h]
  simp only [hguard, if_true]

/-- Witness for C2 at a concrete walking-speed trajectory. -/
theorem stopPattern_guard_witness :
    stopPatternClassify (fun _ _ => 0)
      [{ latitude := 0, longitude := 0, timestamp := 0, speed := none,
         speedKmh := some 5, heading := none }] = none := by
  exact stopPattern_guard (fun _ _ => 0) _ 5 (by simp)
    (by rfl) (by norm_num)

/-- C2 counterexample: a trajectory whose maximum speed is exactly
80 km/h is NOT mapped to `null` (the claim's `≥ 80` bound): the source
guard uses a strict `> 80`, so the classifier proceeds and returns
`car` here. -/
theorem stopPattern_at80_counterexample :
    stopPatternClassify (fun _ _ => 0)
      [{ latitude := 0, longitude := 0, timestamp := 0, speed := none,
         speedKmh := some 80, heading := none }] = some "car" := by
  norm_num [stopPatternClassify, findStops, findStopsAux, sampleSpeed,
    jmax, jlt, jgt]

/-- C7: inside the automotive guard, the decision structure of
`stopPatternClassify`: zero stops give `car`; otherwise `bus` when the
stop frequency (stops per km of path) exceeds 1, else `bus` when the
average inter-stop distance `totalDistance / max(1, stopCount)` lies
strictly inside the 300–1000 m band and there are at least 2 stops, else
`car`; the frequency test is evaluated first. -/
theorem stopPattern_decision (dist : Sample → Sample → ℚ)
    (gps : List Sample) (m : ℚ) (hne : gps ≠ [])
    (hm : jmax (gps.map (fun p => p.speedKmh)) = some m)
    (h25 : 25 ≤ m) (h80 : m ≤ 80) :
    (findStops dist gps = [] → stopPatternClassify dist gps = some "car") ∧
    (findStops dist gps ≠ [] → 0 < totalPathDistance dist gps →
      stopPatternClassify dist gps =
        some
          (if 1 < ((findStops dist gps).length : ℚ)
              / (totalPathDistance dist gps / 1000) then "bus"
           else if (300 < totalPathDistance dist gps
                / max 1 ((findStops dist gps).length : ℚ)
              ∧ totalPathDistance dist gps
                / max 1 ((findStops dist gps).length : ℚ) < 1000)
              ∧ 2 ≤ (findStops dist gps).length then "bus"
           else "car")) := by
  have hlen : ¬ gps.length = 0 := by
    simpa [List.length_eq_zero] using hne
  have hguard : (jlt (jmax (gps.map (fun p => p.speedKmh))) 25
      || jgt (jmax (gps.map (fun p => p.speedKmh))) 80) = false := by
    rw [hm]
    simp only [jlt, jgt, Bool.or_eq_false_iff, decide_eq_false_iff_not]
    constructor
    · linarith
    · linarith
  constructor
  · intro hstops
    unfold stopPatternClassify
    rw [if_neg hlen]
    simp only [hguard, Bool.false_eq_true, if_false, hstops,
      List.length_nil, if_true]
  · intro hstops htd
    unfold stopPatternClassify
    rw [if_neg hlen]
    have hslen : ¬ (findStops dist gps).length = 0 := by
      simpa [List.length_eq_zero] using hstops
    have htdne : ¬ totalPathDistance dist gps = 0 := ne_of_gt htd
    simp only [hguard, Bool.false_eq_true, if_false, hslen, htdne,
      false_or]
    split_ifs <;> rfl

/-- Witness for C7: a two-sample automotive trajectory with one (full)
stop and 400 m between the samples; frequency is `1/(400/1000) = 2.5 >
1`, so the classifier answers `bus`, as the theorem's decision term
evaluates. -/
theorem stopPattern_decision_witness :
    stopPatternClassify (fun _ _ => 400)
      [{ latitude := 0, longitude := 0, timestamp := 0, speed := some 0,
         speedKmh := some 30, heading := none },
       { latitude := 0, longitude := 1, timestamp := 1000, speed := some 0,
         speedKmh := some 30, heading := none }] = some "bus" := by
  have h := (stopPattern_decision (fun _ _ => 400)
    [{ latitude := 0, longitude := 0, timestamp := 0, speed := some 0,
       speedKmh := some 30, heading := none },
     { latitude := 0, longitude := 1, timestamp := 1000, speed := some 0,
       speedKmh := some 30, heading := none }] 30
    (by simp)
    (by norm_num [jmax])
    (by norm_num) (by norm_num)).2
    (by norm_num [findStops, findStopsAux, sampleSpeed])
    (by norm_num [totalPathDistance])
  rw [h]
  norm_num [findStops, findStopsAux, sampleSpeed, totalPathDistance]

-- ===========================================================================
-- C1: confusion matrix
-- ===========================================================================

theorem countsMatrix_nil : countsMatrix [] = initialCMatrix := by
  simp [countsMatrix, initialCMatrix, emptyCMRow]

theorem find?_beq_self {l : List String} {a : String} (ha : a ∈ l) :
    l.find? (fun x => x == a) = some a := by
  induction l with
  | nil => cases ha
  | cons x xs ih =>
    rw [List.find?_cons]
    by_cases hx : (x == a) = true
    · simp only [hx]
      have : x = a := by simpa using hx
      rw [this]
    · have hx' : (x == a) = false := by simpa using hx
      simp only [hx']
      rcases List.mem_cons.mp ha with h | h
      · exact absurd (by simpa using h.symm) hx
      · exact ih h

theorem modes_ne_empty_string {a : String} (ha : a ∈ modes) : ¬ a = "" := by
  fin_cases ha <;> decide

/-- One step of the accumulation loop on the closed form. -/
theorem recordPred_counts (pre : List PredPair) (q : PredPair)
    (ha : q.actual ∈ modes) (hp : q.predicted ∈ modes) :
    recordPred (countsMatrix pre) q = .ok (countsMatrix (pre ++ [q])) := by
  have hane : ¬ q.actual = "" := modes_ne_empty_string ha
  have hpne : ¬ q.predicted = "" := modes_ne_empty_string hp
  unfold recordPred
  rw [if_neg (by tauto)]
  have hfind : (countsMatrix pre).find? (fun e => e.1 == q.actual)
      = some (q.actual, modes.map (fun p =>
          (p, some ((pre.countP
            (fun r => r.actual == q.actual && r.predicted == p) : ℤ))))) := by
    unfold countsMatrix
    rw [List.find?_map]
    rw [show ((fun e : String × CMRow => e.1 == q.actual) ∘ fun a =>
      (a, modes.map (fun p => (p, some ((pre.countP
        (fun r => r.actual == a && r.predicted == p) : ℤ))))))
      = fun a => a == q.actual from rfl]
    rw [find?_beq_self ha]
    rfl
  rw [hfind]
  dsimp only
  congr 1
  unfold countsMatrix
  rw [List.map_map]
  apply List.map_congr_left
  intro a hamem
  by_cases haq : (a == q.actual) = true
  · have haq' : a = q.actual := by simpa using haq
    simp only [Function.comp_apply, haq, if_pos]
    congr 1
    unfold bumpRow
    have hfind2 : (List.map (fun p =>
        (p, some ((pre.countP
          (fun r => r.actual == a && r.predicted == p) : ℤ)))) modes).find?
          (fun e => e.1 == q.predicted) |>.isSome := by
      rw [List.find?_map]
      rw [show ((fun e : String × Option ℤ => e.1 == q.predicted) ∘ fun p =>
        (p, some ((pre.countP
          (fun r => r.actual == a && r.predicted == p) : ℤ))))
        = fun p => p == q.predicted from rfl]
      rw [find?_beq_self hp]
      rfl
    obtain ⟨c, hc⟩ := Option.isSome_iff_exists.mp hfind2
    rw [hc]
    rw [List.map_map]
    apply List.map_congr_left
    intro p hpmem
    by_cases hpq : (p == q.predicted) = true
    · have hpq' : p = q.predicted := by simpa using hpq
      simp only [Function.comp_apply, hpq, if_pos]
      subst haq' hpq'
      rw [List.countP_append]
      simp [List.countP_cons]
    · simp only [Function.comp_apply, hpq]
      rw [List.countP_append]
      have : List.countP (fun r => r.actual == a && r.predicted == p) [q] = 0 := by
        simp only [List.countP_cons, List.countP_nil]
        have : (q.predicted == p) = false := by
          cases hbp : (q.predicted == p) with
          | false => rfl
          | true =>
            exact absurd (by simpa using (beq_iff_eq.mp hbp).symm) hpq
        simp [this]
      rw [this]
      simp
  · have haq2 : (a == q.actual) = false := by simpa using haq
    simp only [Function.comp_apply, haq2, Bool.false_eq_true, if_false]
    congr 1
    apply List.map_congr_left
    intro p hpmem
    rw [List.countP_append]
    have : List.countP (fun r => r.actual == a && r.predicted == p) [q] = 0 := by
      simp only [List.countP_cons, List.countP_nil]
      have : (q.actual == a) = false := by
        cases hba : (q.actual == a) with
        | false => rfl
        | true =>
          exact absurd (by simpa using (beq_iff_eq.mp hba).symm) haq
      simp [this]
    rw [this]
    simp

/-- The accumulation loop on in-vocabulary pairs reaches the closed
form. -/
theorem foldlM_recordPred_counts (preds : List PredPair) :
    ∀ pre : List PredPair,
      (∀ q ∈ preds, q.actual ∈ modes ∧ q.predicted ∈ modes) →
      List.foldlM recordPred (countsMatrix pre) preds
        = .ok (countsMatrix (pre ++ preds)) := by
  induction preds with
  | nil => intro pre _; rw [List.append_nil]; rfl
  | cons q rest ih =>
    intro pre h
    have hq := h q (List.mem_cons_self q rest)
    have hstep := recordPred_counts pre q hq.1 hq.2
    rw [List.foldlM_cons, hstep]
    have := ih (pre ++ [q]) (fun r hr => h r (List.mem_cons_of_mem q hr))
    simpa [List.append_assoc] using this

theorem buildConfusionMatrix_counts (preds : List PredPair)
    (h : ∀ q ∈ preds, q.actual ∈ modes ∧ q.predicted ∈ modes) :
    buildConfusionMatrix preds = .ok (countsMatrix preds) := by
  have := foldlM_recordPred_counts preds [] h
  rw [countsMatrix_nil] at this
  simpa using this

theorem sum_map_add_nat (l : List String) (f g : String → ℕ) :
    (l.map (fun x => f x + g x)).sum = (l.map f).sum + (l.map g).sum := by
  induction l with
  | nil => rfl
  | cons x xs ih => simp [ih]; omega

theorem sum_indicator_zero (l : List String) (t : String) (ht : t ∉ l) :
    (l.map (fun x => if (x == t) = true then (1 : ℕ) else 0)).sum = 0 := by
  induction l with
  | nil => rfl
  | cons x xs ih =>
    have hx : (x == t) = false := by
      have : ¬ x = t := fun hEq => ht (hEq ▸ List.mem_cons_self x xs)
      simpa using this
    simp only [List.map_cons, List.sum_cons, hx, Bool.false_eq_true,
      if_false]
    rw [ih (fun hmem => ht (List.mem_cons_of_mem x hmem))]

theorem beq_comm_str (a b : String) : (a == b) = (b == a) := by
  by_cases h : a = b
  · subst h; rfl
  · have h1 : (a == b) = false := by simpa using h
    have h2 : (b == a) = false := by simpa using fun hEq => h hEq.symm
    rw [h1, h2]

theorem sum_indicator_one (l : List String) (t : String) (ht : t ∈ l)
    (hnd : l.Nodup) :
    (l.map (fun x => if (x == t) = true then (1 : ℕ) else 0)).sum = 1 := by
  induction l with
  | nil => cases ht
  | cons x xs ih =>
    rcases List.mem_cons.mp ht with h | h
    · have hx : (x == t) = true := by simpa using h.symm
      have hnotin : t ∉ xs := by
        rw [h]
        exact (List.nodup_cons.mp hnd).1
      simp only [List.map_cons, List.sum_cons, hx]
      rw [sum_indicator_zero xs t hnotin]
      simp
    · have hx : (x == t) = false := by
        have : ¬ x = t := by
          intro hEq
          subst hEq
          exact (List.nodup_cons.mp hnd).1 h
        simpa using this
      simp only [List.map_cons, List.sum_cons, hx, Bool.false_eq_true,
        if_false]
      rw [ih h (List.nodup_cons.mp hnd).2]

/-- The total count over all `modes × modes` cells is the number of
in-vocabulary pairs. -/
theorem sum_counts_eq_length (preds : List PredPair)
    (h : ∀ q ∈ preds, q.actual ∈ modes ∧ q.predicted ∈ modes) :
    (modes.map (fun a => (modes.map (fun p =>
      preds.countP (fun q => q.actual == a && q.predicted == p))).sum)).sum
      = preds.length := by
  induction preds with
  | nil => simp
  | cons q rest ih =>
    have hq := h q (List.mem_cons_self q rest)
    have hrest := ih (fun r hr => h r (List.mem_cons_of_mem q hr))
    simp only [List.countP_cons]
    have hsplit : ∀ a : String,
        (modes.map (fun p =>
          rest.countP (fun r => r.actual == a && r.predicted == p)
            + if (q.actual == a && q.predicted == p) = true then 1 else 0)).sum
        = (modes.map (fun p =>
            rest.countP (fun r => r.actual == a && r.predicted == p))).sum
          + (modes.map (fun p =>
              if (q.actual == a && q.predicted == p) = true then 1 else 0)).sum :=
      fun a => sum_map_add_nat modes _ _
    have hmodes_nodup : modes.Nodup := by decide
    have hinner : ∀ a : String,
        (modes.map (fun p =>
          if (q.actual == a && q.predicted == p) = true then (1 : ℕ) else 0)).sum
        = if (q.actual == a) = true then 1 else 0 := by
      intro a
      by_cases hqa : (q.actual == a) = true
      · rw [if_pos hqa]
        have hrw : (modes.map (fun p =>
            if (q.actual == a && q.predicted == p) = true then (1 : ℕ) else 0))
            = modes.map (fun p => if (p == q.predicted) = true then (1 : ℕ) else 0) := by
          apply List.map_congr_left
          intro p _
          rw [hqa, Bool.true_and, beq_comm_str]
        rw [hrw, sum_indicator_one modes q.predicted hq.2 hmodes_nodup]
      · have hqa' : (q.actual == a) = false := by simpa using hqa
        rw [if_neg hqa]
        have hrw : (modes.map (fun p =>
            if (q.actual == a && q.predicted == p) = true then (1 : ℕ) else 0))
            = modes.map (fun _ => (0 : ℕ)) := by
          apply List.map_congr_left
          intro p _
          rw [hqa', Bool.false_and]
          simp
        rw [hrw]
        simp
    calc (modes.map (fun a => (modes.map (fun p =>
          rest.countP (fun r => r.actual == a && r.predicted == p)
            + if (q.actual == a && q.predicted == p) = true then 1 else 0)).sum)).sum
        = (modes.map (fun a =>
            (modes.map (fun p =>
              rest.countP (fun r => r.actual == a && r.predicted == p))).sum
            + if (q.actual == a) = true then 1 else 0)).sum := by
          apply congrArg
          apply List.map_congr_left
          intro a _
          rw [hsplit a, hinner a]
      _ = (modes.map (fun a => (modes.map (fun p =>
            rest.countP (fun r => r.actual == a && r.predicted == p))).sum)).sum
          + (modes.map (fun a => if (q.actual == a) = true then (1 : ℕ) else 0)).sum :=
          sum_map_add_nat modes _ _
      _ = rest.length + 1 := by
          have hrw : (modes.map (fun a =>
              if (q.actual == a) = true then (1 : ℕ) else 0))
              = modes.map (fun a => if (a == q.actual) = true then (1 : ℕ) else 0) := by
            apply List.map_congr_left
            intro a _
            rw [beq_comm_str]
          rw [hrest, hrw, sum_indicator_one modes q.actual hq.1 hmodes_nodup]
      _ = (q :: rest).length := by simp [Nat.add_comm]

theorem matCell_counts (preds : List PredPair) (a p : String)
    (ha : a ∈ modes) (hp : p ∈ modes) :
    matCell (countsMatrix preds) a p
      = some (some ((preds.countP
          (fun q => q.actual == a && q.predicted == p) : ℤ))) := by
  unfold matCell
  have h1 : (countsMatrix preds).find? (fun e => e.1 == a)
      = some (a, modes.map (fun x =>
          (x, some ((preds.countP
            (fun q => q.actual == a && q.predicted == x) : ℤ))))) := by
    unfold countsMatrix
    rw [List.find?_map]
    rw [show ((fun e : String × CMRow => e.1 == a) ∘ fun b =>
      (b, modes.map (fun x => (x, some ((preds.countP
        (fun q => q.actual == b && q.predicted == x) : ℤ))))))
      = fun b => b == a from rfl]
    rw [find?_beq_self ha]
    rfl
  rw [h1]
  dsimp only
  have h2 : (modes.map (fun x =>
      (x, some ((preds.countP
        (fun q => q.actual == a && q.predicted == x) : ℤ))))).find?
        (fun e => e.1 == p)
      = some (p, some ((preds.countP
          (fun q => q.actual == a && q.predicted == p) : ℤ))) := by
    rw [List.find?_map]
    rw [show ((fun e : String × Option ℤ => e.1 == p) ∘ fun x =>
      (x, some ((preds.countP
        (fun q => q.actual == a && q.predicted == x) : ℤ))))
      = fun x => x == p from rfl]
    rw [find?_beq_self hp]
    rfl
  rw [h2]

theorem cellSum_counts (c : String → String → ℤ) :
    cellSum (modes.map (fun a => (a, modes.map (fun p => (p, some (c a p))))))
      = some ((modes.map (fun a => (modes.map (fun p => c a p)).sum)).sum) := by
  simp only [cellSum, modes, List.map_cons, List.map_nil, List.foldl_cons,
    List.foldl_nil, jaddZ, List.sum_cons, List.sum_nil]
  congr 1
  ring

theorem cast_sum_nat (l : List String) (f : String → ℕ) :
    (l.map (fun x => ((f x : ℕ) : ℤ))).sum = (((l.map f).sum : ℕ) : ℤ) := by
  induction l with
  | nil => rfl
  | cons x xs ih =>
    simp only [List.map_cons, List.sum_cons, ih]
    push_cast
    ring

/-- C1 (amended): `buildConfusionMatrix` does not silently ignore
out-of-vocabulary labels — a pair whose (truthy) actual label is outside
the five-mode vocabulary raises a TypeError (see the counterexample).
For every list of pairs whose labels are all inside the vocabulary, the
build succeeds, cell `(a, p)` equals the number of pairs
`{actual: a, predicted: p}` (each pair increments exactly its own cell
by one), and the total cell sum equals the number of input pairs. -/
theorem buildConfusionMatrix_inVocab (preds : List PredPair)
    (h : ∀ q ∈ preds, q.actual ∈ modes ∧ q.predicted ∈ modes) :
    ∃ M, buildConfusionMatrix preds = .ok M ∧
      (∀ a ∈ modes, ∀ p ∈ modes,
        matCell M a p = some (some ((preds.countP
          (fun q => q.actual == a && q.predicted == p) : ℤ)))) ∧
      cellSum M = some ((preds.length : ℤ)) := by
  refine ⟨countsMatrix preds, buildConfusionMatrix_counts preds h,
    fun a ha p hp => matCell_counts preds a p ha hp, ?_⟩
  unfold countsMatrix
  rw [cellSum_counts]
  congr 1
  have hcast : ∀ a : String,
      (modes.map (fun p => ((preds.countP
        (fun q => q.actual == a && q.predicted == p) : ℕ) : ℤ))).sum
      = (((modes.map (fun p => preds.countP
          (fun q => q.actual == a && q.predicted == p))).sum : ℕ) : ℤ) :=
    fun a => cast_sum_nat modes _
  calc (modes.map (fun a => (modes.map (fun p => ((preds.countP
        (fun q => q.actual == a && q.predicted == p) : ℕ) : ℤ))).sum)).sum
      = (modes.map (fun a => (((modes.map (fun p => preds.countP
          (fun q => q.actual == a && q.predicted == p))).sum : ℕ) : ℤ))).sum := by
        apply congrArg
        exact List.map_congr_left (fun a _ => hcast a)
    _ = (((modes.map (fun a => (modes.map (fun p => preds.countP
          (fun q => q.actual == a && q.predicted == p))).sum)).sum : ℕ) : ℤ) :=
        cast_sum_nat modes _
    _ = ((preds.length : ℕ) : ℤ) := by
        rw [sum_counts_eq_length preds h]

/-- Witness for C1 (amended) on two concrete in-vocabulary pairs. -/
theorem buildConfusionMatrix_inVocab_witness :
    (∀ q ∈ [PredPair.mk "walking" "walking", PredPair.mk "bus" "car"],
      q.actual ∈ modes ∧ q.predicted ∈ modes) ∧
    ∃ M, buildConfusionMatrix
        [PredPair.mk "walking" "walking", PredPair.mk "bus" "car"] = .ok M ∧
      (∀ a ∈ modes, ∀ p ∈ modes,
        matCell M a p = some (some (([PredPair.mk "walking" "walking",
          PredPair.mk "bus" "car"].countP
          (fun q => q.actual == a && q.predicted == p) : ℤ)))) ∧
      cellSum M = some ((([PredPair.mk "walking" "walking",
        PredPair.mk "bus" "car"] : List PredPair).length : ℤ)) :=
  ⟨by decide, buildConfusionMatrix_inVocab _ (by decide)⟩

/-- C1 counterexample: a pair with a truthy out-of-vocabulary `actual`
label is not silently ignored — the source evaluates
`matrix["scooter"]["walking"]++` where `matrix["scooter"]` is undefined,
raising a TypeError instead of returning a matrix. -/
theorem buildConfusionMatrix_oov_counterexample :
    buildConfusionMatrix [PredPair.mk "scooter" "walking"]
      = .error "TypeError" := by
  rfl

-- ===========================================================================
-- Percentile machinery (C5, C9, C10)
-- ===========================================================================

theorem filterMap_id_map_some (l : List ℚ) :
    (l.map some).filterMap id = l := by
  induction l with
  | nil => rfl
  | cons x xs ih => simp [List.filterMap_cons, ih]

theorem filter_isNone_map_some (l : List ℚ) :
    (l.map some).filter (fun x => x.isNone) = [] := by
  induction l with
  | nil => rfl
  | cons x xs ih => simpa using ih

theorem jsort_map_some (l : List ℚ) :
    jsort (l.map some) = (l.insertionSort (· ≤ ·)).map some := by
  unfold jsort
  rw [filterMap_id_map_some, filter_isNone_map_some, List.append_nil]

theorem getD_map_some (l : List ℚ) (i : ℕ) (h : i < l.length) :
    (l.map some).getD i none = some (l.getD i 0) := by
  induction l generalizing i with
  | nil => cases h
  | cons x xs ih =>
    cases i with
    | zero => rfl
    | succ j => exact ih j (by simpa using h)

theorem getD_mem_of_lt {l : List ℚ} {i : ℕ} (h : i < l.length) (d : ℚ) :
    l.getD i d ∈ l := by
  induction l generalizing i with
  | nil => cases h
  | cons x xs ih =>
    cases i with
    | zero => exact List.mem_cons_self x xs
    | succ j => exact List.mem_cons_of_mem x (ih (by simpa using h))

theorem getD_eq_get {l : List ℚ} {i : ℕ} (h : i < l.length) (d : ℚ) :
    l.getD i d = l.get ⟨i, h⟩ := by
  induction l generalizing i with
  | nil => cases h
  | cons x xs ih =>
    cases i with
    | zero => rfl
    | succ j => exact ih (by simpa using h)

/-- The selected index of `percentile` for `0 ≤ p ≤ 100` on a list of
length `n ≥ 1` lies in `[0, n-1]`. -/
theorem percentile_index_le (n : ℕ) (p : ℚ) (hn : 1 ≤ n)
    (hp100 : p ≤ 100) :
    (max 0 ((p / 100 * (n : ℚ)).ceil - 1)).toNat ≤ n - 1 := by
  have hceil : (p / 100 * (n : ℚ)).ceil ≤ (n : ℤ) := by
    rw [ratCeil_eq_intCeil]
    apply Int.ceil_le.mpr
    push_cast
    have hn0 : (0 : ℚ) ≤ (n : ℚ) := by positivity
    nlinarith
  omega

/-- `percentile` on an all-numeric array selects from the ascending sort
of the values. -/
theorem percentile_map_some (vals : List ℚ) (p : ℚ) (hne : vals ≠ [])
    (hp100 : p ≤ 100) :
    percentile (vals.map some) p
      = some ((vals.insertionSort (· ≤ ·)).getD
          (max 0 ((p / 100 * (vals.length : ℚ)).ceil - 1)).toNat 0) := by
  have hn : 1 ≤ vals.length := by
    cases vals with
    | nil => exact absurd rfl hne
    | cons x xs => simp
  have hlen : (jsort (vals.map some)).length = vals.length := by
    rw [jsort_map_some, List.length_map, List.length_insertionSort]
  unfold percentile
  rw [jsort_map_some]
  simp only [List.length_map, List.length_insertionSort]
  have hidx := percentile_index_le vals.length p hn hp100
  have hlt : (max 0 ((p / 100 * (vals.length : ℚ)).ceil - 1)).toNat
      < (vals.insertionSort (· ≤ ·)).length := by
    rw [List.length_insertionSort]
    omega
  exact getD_map_some _ _ hlt

/-- The last entry of the ascending sort is the maximum. -/
theorem insertionSort_last_eq_listMax (vals : List ℚ) (hne : vals ≠ []) :
    (vals.insertionSort (· ≤ ·)).getD (vals.length - 1) 0 = listMax vals := by
  have hperm : List.Perm (vals.insertionSort (· ≤ ·)) vals :=
    List.perm_insertionSort _ _
  have hsorted : List.Sorted (· ≤ ·) (vals.insertionSort (· ≤ ·)) :=
    List.sorted_insertionSort _ _
  have hlen : (vals.insertionSort (· ≤ ·)).length = vals.length :=
    List.length_insertionSort _ _
  have hn : 1 ≤ vals.length := by
    cases vals with
    | nil => exact absurd rfl hne
    | cons x xs => simp
  have hlast : vals.length - 1 < (vals.insertionSort (· ≤ ·)).length := by omega
  refine le_antisymm ?_ ?_
  · apply le_listMax
    rw [getD_eq_get hlast]
    exact hperm.mem_iff.mp (List.get_mem _ _ hlast)
  · have hmem : listMax vals ∈ vals.insertionSort (· ≤ ·) :=
      hperm.mem_iff.mpr (listMax_mem hne)
    obtain ⟨k, hk⟩ := List.mem_iff_get.mp hmem
    rw [getD_eq_get hlast, ← hk]
    have hkv : (k : ℕ) < vals.length := hlen ▸ k.isLt
    exact hsorted.rel_get_of_le (by rw [Fin.le_def]; simp; omega)

/-- The first entry of the ascending sort is the minimum. -/
theorem insertionSort_head_eq_listMin (vals : List ℚ) (hne : vals ≠ []) :
    (vals.insertionSort (· ≤ ·)).getD 0 0 = listMin vals := by
  have hperm : List.Perm (vals.insertionSort (· ≤ ·)) vals :=
    List.perm_insertionSort _ _
  have hsorted : List.Sorted (· ≤ ·) (vals.insertionSort (· ≤ ·)) :=
    List.sorted_insertionSort _ _
  have hn : 1 ≤ vals.length := by
    cases vals with
    | nil => exact absurd rfl hne
    | cons x xs => simp
  have h0 : 0 < (vals.insertionSort (· ≤ ·)).length := by
    rw [List.length_insertionSort]
    omega
  refine le_antisymm ?_ ?_
  · have hmem : listMin vals ∈ vals.insertionSort (· ≤ ·) :=
      hperm.mem_iff.mpr (listMin_mem hne)
    obtain ⟨k, hk⟩ := List.mem_iff_get.mp hmem
    rw [getD_eq_get h0, ← hk]
    exact hsorted.rel_get_of_le (by rw [Fin.le_def]; simp)
  · apply listMin_le
    rw [getD_eq_get h0]
    exact hperm.mem_iff.mp (List.get_mem _ _ h0)

/-- C5: for a non-empty numeric array and `p ∈ [0, 100]`, `percentile`
returns the entry of the ascending sort at index `ceil(p/100·n) − 1`
clamped into `[0, n−1]` (the source clamps only below; for `p ≤ 100` the
index never exceeds `n−1`, so the two clamps agree); `p = 100` gives the
maximum, `p = 0` the minimum, and every result lies between min and max.
The embedding is purely functional, so the caller's array is never
mutated, matching the source's sort-a-copy. -/
theorem percentile_spec (vals : List ℚ) (p : ℚ) (hne : vals ≠ [])
    (hp0 : 0 ≤ p) (hp100 : p ≤ 100) :
    percentile (vals.map some) p
      = some ((vals.insertionSort (· ≤ ·)).getD
          (min (vals.length - 1)
            (max 0 ((p / 100 * (vals.length : ℚ)).ceil - 1)).toNat) 0) ∧
    percentile (vals.map some) 100 = some (listMax vals) ∧
    percentile (vals.map some) 0 = some (listMin vals) ∧
    ∃ r, percentile (vals.map some) p = some r ∧
      listMin vals ≤ r ∧ r ≤ listMax vals := by
  have hn : 1 ≤ vals.length := by
    cases vals with
    | nil => exact absurd rfl hne
    | cons x xs => simp
  have h1 := percentile_map_some vals p hne hp100
  have hidx := percentile_index_le vals.length p hn hp100
  refine ⟨?_, ?_, ?_, ?_⟩
  · rw [h1, Nat.min_eq_right hidx]
  · have h100 := percentile_map_some vals 100 hne le_rfl
    have hval : ((100 : ℚ) / 100 * (vals.length : ℚ)) = (vals.length : ℚ) := by
      norm_num
    rw [hval, ratCeil_eq_intCeil, Int.ceil_natCast] at h100
    have hnat : (max 0 ((vals.length : ℤ) - 1)).toNat = vals.length - 1 := by
      omega
    rw [hnat] at h100
    rw [h100, insertionSort_last_eq_listMax vals hne]
  · have h0 := percentile_map_some vals 0 hne (by norm_num)
    have hval : ((0 : ℚ) / 100 * (vals.length : ℚ)) = (0 : ℚ) := by norm_num
    rw [hval, ratCeil_eq_intCeil, Int.ceil_zero] at h0
    have hnat : (max 0 ((0 : ℤ) - 1)).toNat = 0 := by omega
    rw [hnat] at h0
    rw [h0, insertionSort_head_eq_listMin vals hne]
  · refine ⟨_, h1, ?_, ?_⟩ <;>
    · have hperm : List.Perm (vals.insertionSort (· ≤ ·)) vals :=
        List.perm_insertionSort _ _
      have hlt : (max 0 ((p / 100 * (vals.length : ℚ)).ceil - 1)).toNat
          < (vals.insertionSort (· ≤ ·)).length := by
        rw [List.length_insertionSort]
        omega
      have hmem : (vals.insertionSort (· ≤ ·)).getD
          (max 0 ((p / 100 * (vals.length : ℚ)).ceil - 1)).toNat 0 ∈ vals :=
        hperm.mem_iff.mp (getD_mem_of_lt hlt 0)
      first
        | exact listMin_le hmem
        | exact le_listMax hmem

/-- Witness for C5 on the concrete array `[3, 1, 2]` with `p = 50`. -/
theorem percentile_spec_witness :
    percentile ([(3 : ℚ), 1, 2].map some) 100 = some (listMax [3, 1, 2]) ∧
    percentile ([(3 : ℚ), 1, 2].map some) 0 = some (listMin [3, 1, 2]) ∧
    ∃ r, percentile ([(3 : ℚ), 1, 2].map some) 50 = some r ∧
      listMin [3, 1, 2] ≤ r ∧ r ≤ listMax [3, 1, 2] := by
  have h := percentile_spec [3, 1, 2] 50 (by simp) (by norm_num) (by norm_num)
  exact ⟨h.2.1, h.2.2.1, h.2.2.2⟩

-- ===========================================================================
-- C9: outlier stability of Percentile95 vs Baseline
-- ===========================================================================

/-- In a sorted list, if the entry at position `i` exceeds `t`, so do all
later entries, hence at least `length - i` entries exceed `t`. -/
theorem sorted_countP_drop (s : List ℚ) (hs : List.Sorted (· ≤ ·) s)
    (i : ℕ) (hi : i < s.length) (t : ℚ) (ht : t < s.get ⟨i, hi⟩) :
    s.length - i ≤ s.countP (fun v => decide (t < v)) := by
  have hsplit : s.countP (fun v => decide (t < v))
      = (s.take i).countP (fun v => decide (t < v))
        + (s.drop i).countP (fun v => decide (t < v)) := by
    conv_lhs => rw [← List.take_append_drop i s]
    rw [List.countP_append]
  have hall : ∀ a ∈ s.drop i, (fun v => decide (t < v)) a = true := by
    intro a ha
    obtain ⟨j, hj⟩ := List.mem_iff_get.mp ha
    have hj2 : (j : ℕ) < s.length - i := by
      have := j.isLt
      simpa [List.length_drop] using this
    have hlen2 : i + (j : ℕ) < s.length := by omega
    have hget : (s.drop i).get j = s.get ⟨i + (j : ℕ), hlen2⟩ := by
      rw [List.get_drop']
    have hle : s.get ⟨i, hi⟩ ≤ s.get ⟨i + (j : ℕ), hlen2⟩ :=
      hs.rel_get_of_le (by rw [Fin.le_def]; simp)
    have : t < a := by
      rw [← hj, hget]
      linarith
    simpa using this
  have hdrop := List.countP_eq_length.mpr hall
  rw [hsplit, hdrop, List.length_drop]
  omega

/-- C9: a trajectory of at least 20 samples whose speeds are all ≤ 6
km/h except a single 50 km/h outlier: `percentile95Classify` still says
`walking` (the 95th-percentile index lands strictly before the sorted
maximum), while `baselineClassify` flips to `bus-or-car` (its max is the
outlier, 50 ∈ [25, 80)). -/
theorem percentile95_outlier_stability (gps : List Sample)
    (hlen : 20 ≤ gps.length)
    (hsome : ∀ s ∈ gps, s.speedKmh.isSome)
    (hcount : (gps.filterMap (fun q => q.speedKmh)).count 50 = 1)
    (hle : ∀ v ∈ gps.filterMap (fun q => q.speedKmh), v ≤ 6 ∨ v = 50) :
    percentile95Classify gps = "walking" ∧ baselineClassify gps = "bus-or-car" := by
  have hlenv : (gps.filterMap (fun q => q.speedKmh)).length = gps.length :=
    filterMap_length_of_all_isSome gps _ hsome
  have hne : gps ≠ [] := by
    intro h
    rw [h] at hlen
    simp at hlen
  have hvne : gps.filterMap (fun q => q.speedKmh) ≠ [] := by
    intro h
    rw [h] at hlenv
    simp at hlenv
    omega
  have h50mem : (50 : ℚ) ∈ gps.filterMap (fun q => q.speedKmh) :=
    List.count_pos_iff.mp (by omega)
  have hmax : listMax (gps.filterMap (fun q => q.speedKmh)) = 50 := by
    have h1 : (50 : ℚ) ≤ listMax (gps.filterMap (fun q => q.speedKmh)) :=
      le_listMax h50mem
    have h2 := listMax_mem hvne
    rcases hle _ h2 with h | h
    · linarith
    · exact h
  have hmap := map_eq_filterMap_map_some gps (fun q => q.speedKmh) hsome
  have hlen0 : ¬ gps.length = 0 := by
    simpa [List.length_eq_zero] using hne
  constructor
  · -- percentile95Classify = walking
    have hcnt : (gps.filterMap (fun q => q.speedKmh)).countP
        (fun v => decide (6 < v)) = 1 := by
      have hcong : (gps.filterMap (fun q => q.speedKmh)).countP
          (fun v => decide (6 < v))
          = (gps.filterMap (fun q => q.speedKmh)).countP (fun v => v == 50) := by
        apply List.countP_congr
        intro a ha
        constructor
        · intro h6
          have h6' : (6 : ℚ) < a := of_decide_eq_true h6
          rcases hle a ha with h | h
          · linarith
          · simp [h]
        · intro hbeq
          have : a = (50 : ℚ) := by simpa using hbeq
          subst this
          simp only [decide_eq_true_eq]
          norm_num
      rw [hcong]
      simpa [List.count] using hcount
    have hp95 := percentile_map_some (gps.filterMap (fun q => q.speedKmh)) 95
      hvne (by norm_num)
    have hceil : (((95 : ℚ) / 100
        * ((gps.filterMap (fun q => q.speedKmh)).length : ℚ)).ceil : ℤ)
        ≤ ((gps.filterMap (fun q => q.speedKmh)).length : ℤ) - 1 := by
      rw [ratCeil_eq_intCeil]
      apply Int.ceil_le.mpr
      push_cast
      have h20 : (20 : ℚ) ≤ ((gps.filterMap (fun q => q.speedKmh)).length : ℚ) := by
        rw [hlenv]
        exact_mod_cast hlen
      nlinarith
    have hidx2 : (max 0 (((95 : ℚ) / 100
        * ((gps.filterMap (fun q => q.speedKmh)).length : ℚ)).ceil - 1)).toNat
        ≤ (gps.filterMap (fun q => q.speedKmh)).length - 2 := by
      omega
    have hsvlen : ((gps.filterMap (fun q => q.speedKmh)).insertionSort
        (· ≤ ·)).length = (gps.filterMap (fun q => q.speedKmh)).length :=
      List.length_insertionSort _ _
    have hlt : (max 0 (((95 : ℚ) / 100
        * ((gps.filterMap (fun q => q.speedKmh)).length : ℚ)).ceil - 1)).toNat
        < ((gps.filterMap (fun q => q.speedKmh)).insertionSort (· ≤ ·)).length := by
      omega
    have hval6 : ((gps.filterMap (fun q => q.speedKmh)).insertionSort
        (· ≤ ·)).getD (max 0 (((95 : ℚ) / 100
          * ((gps.filterMap (fun q => q.speedKmh)).length : ℚ)).ceil - 1)).toNat 0
        ≤ 6 := by
      by_contra hgt
      push_neg at hgt
      have hsorted := List.sorted_insertionSort (· ≤ ·)
        (gps.filterMap (fun q => q.speedKmh))
      have hb := sorted_countP_drop _ hsorted _ hlt 6
        (by rw [← getD_eq_get hlt 0]; linarith)
      have hperm := List.perm_insertionSort (· ≤ ·)
        (gps.filterMap (fun q => q.speedKmh))
      have hc2 : ((gps.filterMap (fun q => q.speedKmh)).insertionSort
          (· ≤ ·)).countP (fun v => decide (6 < v)) = 1 := by
        rw [hperm.countP_eq]
        exact hcnt
      omega
    unfold percentile95Classify
    rw [if_neg hlen0]
    simp only [hmap, hp95, jlt, decide_eq_true_eq]
    rw [if_pos (by linarith)]
  · -- baselineClassify = bus-or-car
    unfold baselineClassify
    rw [if_neg hlen0]
    simp only [hmap, jmax_map_some _ hvne, hmax, jlt, decide_eq_true_eq]
    norm_num

theorem filterMap_speedKmh_replicate (n : ℕ) (s : Sample) (b : ℚ)
    (h : s.speedKmh = some b) :
    (List.replicate n s).filterMap (fun q => q.speedKmh)
      = List.replicate n b := by
  induction n with
  | zero => rfl
  | succ m ih => simp [List.replicate_succ, List.filterMap_cons, h, ih]

/-- Witness for C9: nineteen samples at 3 km/h plus one 50 km/h
outlier. -/
theorem percentile95_outlier_stability_witness :
    percentile95Classify (List.replicate 19
        { latitude := 0, longitude := 0, timestamp := 0, speed := none,
          speedKmh := some 3, heading := none }
      ++ [{ latitude := 0, longitude := 0, timestamp := 0, speed := none,
            speedKmh := some 50, heading := none }]) = "walking" ∧
    baselineClassify (List.replicate 19
        { latitude := 0, longitude := 0, timestamp := 0, speed := none,
          speedKmh := some 3, heading := none }
      ++ [{ latitude := 0, longitude := 0, timestamp := 0, speed := none,
            speedKmh := some 50, heading := none }]) = "bus-or-car" := by
  apply percentile95_outlier_stability
  · simp
  · intro s hs
    rcases List.mem_append.mp hs with h | h
    · rw [List.eq_of_mem_replicate h]
      rfl
    · rw [List.mem_singleton.mp h]
      rfl
  · rw [List.filterMap_append, filterMap_speedKmh_replicate 19 _ 3 rfl]
    simp only [List.filterMap_cons, List.filterMap_nil]
    rw [List.count_append, List.count_replicate]
    simp only [List.count_cons, List.count_nil, beq_iff_eq]
    norm_num
  · intro v hv
    rw [List.filterMap_append, filterMap_speedKmh_replicate 19 _ 3 rfl] at hv
    simp only [List.filterMap_cons, List.filterMap_nil] at hv
    rcases List.mem_append.mp hv with h | h
    · left
      rw [List.eq_of_mem_replicate h]
      norm_num
    · right
      simpa using h

-- ===========================================================================
-- C6 / C10: findStops
-- ===========================================================================

/-- Once inside a run, if every remaining sample is below the threshold
the run is closed only at the end of the trajectory. -/
theorem findStopsAux_all_below (dist : Sample → Sample → ℚ)
    (points : List Sample) (thr : ℚ) :
    ∀ (rest : List Sample) (i s : ℕ) (acc : List Stop),
      (∀ x ∈ rest, sampleSpeed x < thr) →
      findStopsAux dist points thr rest i (some s) acc
        = acc ++
          [{ startIndex := s, endIndex := points.length - 1,
             duration :=
               ((points.getD (points.length - 1) default).timestamp
                 - (points.getD s default).timestamp) / 1000,
             distance :=
               if 0 < s then
                 dist (points.getD (s - 1) default)
                   (points.getD (points.length - 1) default)
               else 0 }] := by
  intro rest
  induction rest with
  | nil => intro i s acc _; rfl
  | cons p r ih =>
    intro i s acc hall
    have hp : sampleSpeed p < thr := hall p (List.mem_cons_self p r)
    show (if sampleSpeed p < thr then _ else _) = _
    rw [if_pos hp]
    exact ih (i + 1) s acc (fun x hx => hall x (List.mem_cons_of_mem p hx))

/-- Scanning outside a run over samples all at or above the threshold
adds no stops. -/
theorem findStopsAux_all_above (dist : Sample → Sample → ℚ)
    (points : List Sample) (thr : ℚ) :
    ∀ (rest : List Sample) (i : ℕ) (acc : List Stop),
      (∀ x ∈ rest, thr ≤ sampleSpeed x) →
      findStopsAux dist points thr rest i none acc = acc := by
  intro rest
  induction rest with
  | nil => intro i acc _; rfl
  | cons p r ih =>
    intro i acc hall
    have hp : ¬ sampleSpeed p < thr :=
      not_lt.mpr (hall p (List.mem_cons_self p r))
    show (if sampleSpeed p < thr then _ else _) = _
    rw [if_neg hp]
    exact ih (i + 1) acc (fun x hx => hall x (List.mem_cons_of_mem p hx))

/-- Invariant proof: the stops accumulated by the scan are well-formed
(start ≤ end) and strictly ordered (each stop ends before the next
begins). -/
theorem findStopsAux_chain (dist : Sample → Sample → ℚ)
    (points : List Sample) (thr : ℚ) :
    ∀ (rest : List Sample) (i : ℕ) (ss : Option ℕ) (acc : List Stop),
      i + rest.length = points.length →
      (∀ st ∈ acc, st.startIndex ≤ st.endIndex) →
      List.Chain' (fun a b => a.endIndex < b.startIndex) acc →
      (match ss with
       | some s => (∀ st ∈ acc, st.endIndex < s) ∧ s < i
       | none => ∀ st ∈ acc, st.endIndex < i) →
      (∀ st ∈ findStopsAux dist points thr rest i ss acc,
        st.startIndex ≤ st.endIndex) ∧
      List.Chain' (fun a b => a.endIndex < b.startIndex)
        (findStopsAux dist points thr rest i ss acc) := by
  intro rest
  induction rest with
  | nil =>
    intro i ss acc hlen h1 h2 h3
    cases ss with
    | none =>
      simp only [findStopsAux]
      exact ⟨h1, h2⟩
    | some s =>
      obtain ⟨hend, hsi⟩ := h3
      have hi : i = points.length := by simpa using hlen
      have hs : s < points.length := hi ▸ hsi
      simp only [findStopsAux]
      constructor
      · intro st hst
        rcases List.mem_append.mp hst with h | h
        · exact h1 st h
        · rw [List.mem_singleton.mp h]
          show s ≤ points.length - 1
          omega
      · rw [List.chain'_append]
        refine ⟨h2, List.chain'_singleton _, ?_⟩
        intro x hx y hy
        have hxa : x ∈ acc := List.mem_of_mem_getLast? hx
        have hy2 := Option.mem_def.mp hy
        simp only [List.head?_cons, Option.some_inj] at hy2
        rw [← hy2]
        show x.endIndex < s
        exact hend x hxa
  | cons p r ih =>
    intro i ss acc hlen h1 h2 h3
    have hlen2 : (i + 1) + r.length = points.length := by
      simp only [List.length_cons] at hlen
      omega
    cases ss with
    | none =>
      simp only [findStopsAux]
      by_cases hp : sampleSpeed p < thr
      · rw [if_pos hp]
        exact ih (i + 1) (some i) acc hlen2 h1 h2 ⟨h3, Nat.lt_succ_self i⟩
      · rw [if_neg hp]
        exact ih (i + 1) none acc hlen2 h1 h2
          (fun st hst => Nat.lt_succ_of_lt (h3 st hst))
    | some s =>
      obtain ⟨hend, hsi⟩ := h3
      simp only [findStopsAux]
      by_cases hp : sampleSpeed p < thr
      · rw [if_pos hp]
        exact ih (i + 1) (some s) acc hlen2 h1 h2 ⟨hend, by omega⟩
      · rw [if_neg hp]
        apply ih (i + 1) none _ hlen2
        · intro st hst
          rcases List.mem_append.mp hst with h | h
          · exact h1 st h
          · rw [List.mem_singleton.mp h]
            show s ≤ i - 1
            omega
        · rw [List.chain'_append]
          refine ⟨h2, List.chain'_singleton _, ?_⟩
          intro x hx y hy
          have hxa : x ∈ acc := List.mem_of_mem_getLast? hx
          have hy2 := Option.mem_def.mp hy
          simp only [List.head?_cons, Option.some_inj] at hy2
          rw [← hy2]
          show x.endIndex < s
          exact hend x hxa
        · intro st hst
          rcases List.mem_append.mp hst with h | h
          · exact Nat.lt_succ_of_lt (Nat.lt_of_lt_of_le (hend st h) (by omega))
          · rw [List.mem_singleton.mp h]
            show i - 1 < i + 1
            omega

theorem findStops_all_below (dist : Sample → Sample → ℚ) (gps : List Sample)
    (thr : ℚ) (hne : gps ≠ []) (hall : ∀ x ∈ gps, sampleSpeed x < thr) :
    ∃ st, findStops dist gps thr = [st] ∧ st.startIndex = 0 ∧
      st.endIndex = gps.length - 1 := by
  cases gps with
  | nil => exact absurd rfl hne
  | cons p r =>
    unfold findStops
    simp only [findStopsAux]
    rw [if_pos (hall p (List.mem_cons_self p r))]
    rw [findStopsAux_all_below dist (p :: r) thr r 1 0 []
      (fun x hx => hall x (List.mem_cons_of_mem p hx))]
    exact ⟨_, rfl, rfl, rfl⟩

theorem findStops_all_above (dist : Sample → Sample → ℚ) (gps : List Sample)
    (thr : ℚ) (hall : ∀ x ∈ gps, thr ≤ sampleSpeed x) :
    findStops dist gps thr = [] :=
  findStopsAux_all_above dist gps thr gps 0 [] hall

theorem findStops_ordered (dist : Sample → Sample → ℚ) (gps : List Sample)
    (thr : ℚ) :
    (∀ st ∈ findStops dist gps thr, st.startIndex ≤ st.endIndex) ∧
    List.Chain' (fun a b => a.endIndex < b.startIndex)
      (findStops dist gps thr) := by
  apply findStopsAux_chain dist gps thr gps 0 none []
  · simp
  · intro st hst
    cases hst
  · exact List.chain'_nil
  · intro st hst
    cases hst

/-- C6: on an all-below-threshold (non-empty) trajectory `findStops`
returns exactly one stop spanning indices 0 to N−1; on an
all-at-or-above-threshold trajectory it returns no stops; and in every
case the stops are well-formed (start ≤ end) and strictly ordered — each
stop ends before the next begins, so they are non-overlapping and
chronological. -/
theorem findStops_spec (dist : Sample → Sample → ℚ) (gps : List Sample)
    (thr : ℚ) :
    (gps ≠ [] → (∀ x ∈ gps, sampleSpeed x < thr) →
      ∃ st, findStops dist gps thr = [st] ∧ st.startIndex = 0 ∧
        st.endIndex = gps.length - 1) ∧
    ((∀ x ∈ gps, thr ≤ sampleSpeed x) → findStops dist gps thr = []) ∧
    (∀ st ∈ findStops dist gps thr, st.startIndex ≤ st.endIndex) ∧
    List.Chain' (fun a b => a.endIndex < b.startIndex)
      (findStops dist gps thr) :=
  ⟨fun hne hall => findStops_all_below dist gps thr hne hall,
   fun hall => findStops_all_above dist gps thr hall,
   (findStops_ordered dist gps thr).1,
   (findStops_ordered dist gps thr).2⟩

/-- Witness for C6: a two-sample stationary trajectory yields the single
full-span stop, and a single fast sample yields no stop. -/
theorem findStops_spec_witness :
    (∃ st, findStops (fun _ _ => 0)
        [{ latitude := 0, longitude := 0, timestamp := 0, speed := some 0,
           speedKmh := none, heading := none },
         { latitude := 0, longitude := 0, timestamp := 1000, speed := some 0,
           speedKmh := none, heading := none }] 1 = [st] ∧
      st.startIndex = 0 ∧ st.endIndex = 1) ∧
    findStops (fun _ _ => 0)
      [{ latitude := 0, longitude := 0, timestamp := 0, speed := some 5,
         speedKmh := none, heading := none }] 1 = [] := by
  constructor
  · have h := (findStops_spec (fun _ _ => 0)
      [{ latitude := 0, longitude := 0, timestamp := 0, speed := some 0,
         speedKmh := none, heading := none },
       { latitude := 0, longitude := 0, timestamp := 1000, speed := some 0,
         speedKmh := none, heading := none }] 1).1
      (by simp)
      (by
        intro x hx
        rcases List.mem_cons.mp hx with h | h
        · rw [h]; norm_num [sampleSpeed]
        · rw [List.mem_singleton.mp h]; norm_num [sampleSpeed])
    simpa using h
  · exact (findStops_spec (fun _ _ => 0)
      [{ latitude := 0, longitude := 0, timestamp := 0, speed := some 5,
         speedKmh := none, heading := none }] 1).2.1
      (by
        intro x hx
        rw [List.mem_singleton.mp hx]
        norm_num [sampleSpeed])

-- ===========================================================================
-- C10: speed vs speedKmh across the interface
-- ===========================================================================

theorem getD_none_of_all_none {l : List (Option ℚ)}
    (h : ∀ x ∈ l, x = none) (i : ℕ) : l.getD i none = none := by
  induction l generalizing i with
  | nil => rfl
  | cons x xs ih =>
    cases i with
    | zero => exact h x (List.mem_cons_self x xs)
    | succ j => exact ih (fun y hy => h y (List.mem_cons_of_mem x hy)) j

theorem percentile_all_none (arr : List (Option ℚ))
    (h : ∀ x ∈ arr, x = none) (p : ℚ) : percentile arr p = none := by
  have h1 : arr.filterMap id = [] := by
    rw [List.filterMap_eq_nil]
    intro a ha
    exact h a ha
  have h2 : arr.filter (fun x => x.isNone) = arr :=
    List.filter_eq_self.mpr (fun a ha => by rw [h a ha]; rfl)
  unfold percentile jsort
  rw [h1, h2]
  simp only [List.insertionSort, List.map_nil, List.nil_append]
  exact getD_none_of_all_none h _

/-- C10: on a non-empty trajectory whose samples carry `speed` (m/s) but
no `speedKmh`, both speed-based classifiers answer `unknown` (their
`speedKmh` reads are all undefined, so every threshold comparison
fails), while `findStops` still works off the `speed` field — e.g. an
all-slow trajectory still produces its full-span stop.  The two speed
representations are therefore not interchangeable across the
classifier interface. -/
theorem speed_field_mismatch (dist : Sample → Sample → ℚ)
    (gps : List Sample) (hne : gps ≠ [])
    (hkmh : ∀ s ∈ gps, s.speedKmh = none)
    (hsp : ∀ s ∈ gps, s.speed.isSome) :
    baselineClassify gps = "unknown" ∧
    percentile95Classify gps = "unknown" ∧
    ((∀ s ∈ gps, ∃ v, s.speed = some v ∧ v < 1 / 2) →
      ∃ st, findStops dist gps = [st] ∧ st.startIndex = 0 ∧
        st.endIndex = gps.length - 1) := by
  have hlen0 : ¬ gps.length = 0 := by
    simpa [List.length_eq_zero] using hne
  have hallnone : ∀ x ∈ gps.map (fun p => p.speedKmh), x = none := by
    intro x hx
    obtain ⟨s, hs, hfs⟩ := List.mem_map.mp hx
    rw [← hfs]
    exact hkmh s hs
  have hmapne : gps.map (fun p => p.speedKmh) ≠ [] := by
    simpa [List.map_eq_nil] using hne
  refine ⟨?_, ?_, ?_⟩
  · unfold baselineClassify
    rw [if_neg hlen0]
    simp only [jmax_all_none hmapne hallnone, jlt, Bool.false_eq_true,
      if_false]
  · unfold percentile95Classify
    rw [if_neg hlen0]
    simp only [percentile_all_none _ hallnone, jlt, Bool.false_eq_true,
      if_false]
  · intro hslow
    apply findStops_all_below dist gps (1 / 2) hne
    intro x hx
    obtain ⟨v, hv, hvlt⟩ := hslow x hx
    unfold sampleSpeed
    rw [hv]
    exact hvlt

/-- Witness for C10: one sample with `speed = 0` m/s and no `speedKmh`. -/
theorem speed_field_mismatch_witness :
    baselineClassify
      [{ latitude := 0, longitude := 0, timestamp := 0, speed := some 0,
         speedKmh := none, heading := none }] = "unknown" ∧
    percentile95Classify
      [{ latitude := 0, longitude := 0, timestamp := 0, speed := some 0,
         speedKmh := none, heading := none }] = "unknown" ∧
    ∃ st, findStops (fun _ _ => 0)
        [{ latitude := 0, longitude := 0, timestamp := 0, speed := some 0,
           speedKmh := none, heading := none }] = [st] ∧
      st.startIndex = 0 ∧ st.endIndex = 0 := by
  have h := speed_field_mismatch (fun _ _ => 0)
    [{ latitude := 0, longitude := 0, timestamp := 0, speed := some 0,
       speedKmh := none, heading := none }]
    (by simp)
    (by intro s hs; rw [List.mem_singleton.mp hs])
    (by intro s hs; rw [List.mem_singleton.mp hs]; rfl)
  refine ⟨h.1, h.2.1, ?_⟩
  have h3 := h.2.2 (by
    intro s hs
    rw [List.mem_singleton.mp hs]
    exact ⟨0, rfl, by norm_num⟩)
  simpa using h3

-- ===========================================================================
-- C8 / C3: heading changes
-- ===========================================================================

/-- The first normalization loop ends at or below `pi` (induction on an
upper bound for the number of iterations). -/
theorem normLoopDown_le_aux (pi : ℚ) (hpi : 0 < pi) :
    ∀ (n : ℕ) (c : ℚ), ((c - pi) / (2 * pi)).ceil.toNat ≤ n →
      normLoopDown pi c ≤ pi := by
  intro n
  induction n with
  | zero =>
    intro c hc
    have hc2 : ¬ pi < c := by
      intro hlt
      have h2pi : (0 : ℚ) < 2 * pi := by linarith
      have hr : (0 : ℚ) < (c - pi) / (2 * pi) := div_pos (by linarith) h2pi
      have := Int.ceil_pos.mpr hr
      rw [ratCeil_eq_intCeil] at hc
      omega
    rw [normLoopDown, dif_neg (by tauto)]
    exact not_lt.mp hc2
  | succ m ih =>
    intro c hc
    by_cases hlt : pi < c
    · rw [normLoopDown, dif_pos ⟨hpi, hlt⟩]
      apply ih
      have h2pi : (0 : ℚ) < 2 * pi := by linarith
      have harg : (c - 2 * pi - pi) / (2 * pi) = (c - pi) / (2 * pi) - 1 := by
        field_simp
        ring
      rw [harg, ratCeil_eq_intCeil, Int.ceil_sub_one]
      rw [ratCeil_eq_intCeil] at hc
      omega
    · rw [normLoopDown, dif_neg (by tauto)]
      exact not_lt.mp hlt

theorem normLoopDown_le (pi c : ℚ) (hpi : 0 < pi) :
    normLoopDown pi c ≤ pi :=
  normLoopDown_le_aux pi hpi _ c le_rfl

/-- The second loop, started at or below `pi`, lands in `[-pi, pi]`. -/
theorem normLoopUp_bounds_aux (pi : ℚ) (hpi : 0 < pi) :
    ∀ (n : ℕ) (c : ℚ), ((-pi - c) / (2 * pi)).ceil.toNat ≤ n → c ≤ pi →
      -pi ≤ normLoopUp pi c ∧ normLoopUp pi c ≤ pi := by
  intro n
  induction n with
  | zero =>
    intro c hc hcle
    have hc2 : ¬ c < -pi := by
      intro hlt
      have h2pi : (0 : ℚ) < 2 * pi := by linarith
      have hr : (0 : ℚ) < (-pi - c) / (2 * pi) := div_pos (by linarith) h2pi
      have := Int.ceil_pos.mpr hr
      rw [ratCeil_eq_intCeil] at hc
      omega
    rw [normLoopUp, dif_neg (by tauto)]
    exact ⟨not_lt.mp hc2, hcle⟩
  | succ m ih =>
    intro c hc hcle
    by_cases hlt : c < -pi
    · rw [normLoopUp, dif_pos ⟨hpi, hlt⟩]
      apply ih
      · have h2pi : (0 : ℚ) < 2 * pi := by linarith
        have harg : (-pi - (c + 2 * pi)) / (2 * pi)
            = (-pi - c) / (2 * pi) - 1 := by
          field_simp
          ring
        rw [harg, ratCeil_eq_intCeil, Int.ceil_sub_one]
        rw [ratCeil_eq_intCeil] at hc
        omega
      · linarith
    · rw [normLoopUp, dif_neg (by tauto)]
      exact ⟨not_lt.mp hlt, hcle⟩

theorem jsNormalizeRad_bounds (pi c : ℚ) (hpi : 0 < pi) :
    -pi ≤ jsNormalizeRad pi c ∧ jsNormalizeRad pi c ≤ pi := by
  unfold jsNormalizeRad
  exact normLoopUp_bounds_aux pi hpi _ _ le_rfl (normLoopDown_le pi c hpi)

theorem calculateHeadingChanges_length (pi : ℚ) (l : List Sample) :
    (calculateHeadingChanges pi l).length = l.length - 1 := by
  induction l with
  | nil => rfl
  | cons x xs ih =>
    cases xs with
    | nil => rfl
    | cons y rest =>
      show (hcStep pi x y :: calculateHeadingChanges pi (y :: rest)).length = _
      simp only [List.length_cons] at *
      omega

theorem calculateHeadingChanges_mem (pi : ℚ) (hpi : 0 < pi) :
    ∀ (l : List Sample), (∀ s ∈ l, s.heading.isSome) →
      ∀ x ∈ calculateHeadingChanges pi l,
        ∃ q, x = some q ∧ 0 ≤ q ∧ q ≤ pi := by
  intro l
  induction l with
  | nil =>
    intro _ x hx
    cases hx
  | cons a xs ih =>
    cases xs with
    | nil =>
      intro _ x hx
      cases hx
    | cons b rest =>
      intro hall x hx
      rcases List.mem_cons.mp hx with h | h
      · obtain ⟨va, hva⟩ := Option.isSome_iff_exists.mp
          (hall a (List.mem_cons_self a _))
        obtain ⟨vb, hvb⟩ := Option.isSome_iff_exists.mp
          (hall b (List.mem_cons_of_mem a (List.mem_cons_self b rest)))
        have hbounds := jsNormalizeRad_bounds pi (vb - va) hpi
        refine ⟨|jsNormalizeRad pi (vb - va)|, ?_, abs_nonneg _,
          abs_le.mpr ⟨hbounds.1, hbounds.2⟩⟩
        rw [h]
        unfold hcStep
        rw [hva, hvb]
      · exact ih (fun s hs => hall s (List.mem_cons_of_mem a hs)) x h

theorem calculateHeadingChanges_getElem (pi : ℚ) :
    ∀ (l : List Sample) (i : ℕ),
      (calculateHeadingChanges pi l)[i]? =
        match l[i]?, l[i + 1]? with
        | some prev, some cur => some (hcStep pi prev cur)
        | _, _ => none := by
  intro l
  induction l with
  | nil => intro i; rfl
  | cons a xs ih =>
    cases xs with
    | nil =>
      intro i
      cases i with
      | zero => rfl
      | succ j => rfl
    | cons b rest =>
      intro i
      cases i with
      | zero =>
        simp only [calculateHeadingChanges, List.getElem?_cons_zero,
          List.getElem?_cons_succ]
      | succ j =>
        have hL : (calculateHeadingChanges pi (a :: b :: rest))[j + 1]?
            = (calculateHeadingChanges pi (b :: rest))[j]? := by
          simp only [calculateHeadingChanges, List.getElem?_cons_succ]
        have h1 : (a :: b :: rest)[j + 1]? = (b :: rest)[j]? :=
          List.getElem?_cons_succ
        have h2 : (a :: b :: rest)[j + 1 + 1]? = (b :: rest)[j + 1]? :=
          List.getElem?_cons_succ
        rw [hL, ih j, h1, h2]

/-- C8: on a trajectory all of whose samples carry a heading,
`calculateHeadingChanges` returns `len − 1` entries (0 for length ≤ 1),
every entry is a number in `[0, pi]` (the shorter arc never exceeds the
half-turn `pi`), and entry `i` is exactly the normalized absolute
difference of the headings of samples `i` and `i+1`. -/
theorem calculateHeadingChanges_spec (pi : ℚ) (hpi : 0 < pi)
    (points : List Sample) (hh : ∀ s ∈ points, s.heading.isSome) :
    (calculateHeadingChanges pi points).length = points.length - 1 ∧
    (∀ x ∈ calculateHeadingChanges pi points,
      ∃ q, x = some q ∧ 0 ≤ q ∧ q ≤ pi) ∧
    (∀ (i : ℕ) (prev cur : Sample) (a b : ℚ),
      points[i]? = some prev → points[i + 1]? = some cur →
      prev.heading = some a → cur.heading = some b →
      (calculateHeadingChanges pi points)[i]?
        = some (some |jsNormalizeRad pi (b - a)|)) := by
  refine ⟨calculateHeadingChanges_length pi points,
    calculateHeadingChanges_mem pi hpi points hh, ?_⟩
  intro i prev cur a b hp hc hha hhb
  rw [calculateHeadingChanges_getElem pi points i, hp, hc]
  show some (hcStep pi prev cur) = _
  unfold hcStep
  rw [hha, hhb]

/-- Witness for C8 on two samples with headings 0 and 1 (radians), with
`pi` instantiated at the rational 3. -/
theorem calculateHeadingChanges_spec_witness :
    (calculateHeadingChanges 3
      [{ latitude := 0, longitude := 0, timestamp := 0, speed := none,
         speedKmh := none, heading := some 0 },
       { latitude := 0, longitude := 0, timestamp := 0, speed := none,
         speedKmh := none, heading := some 1 }]).length = 1 ∧
    ∀ x ∈ calculateHeadingChanges 3
      [{ latitude := 0, longitude := 0, timestamp := 0, speed := none,
         speedKmh := none, heading := some 0 },
       { latitude := 0, longitude := 0, timestamp := 0, speed := none,
         speedKmh := none, heading := some 1 }],
      ∃ q, x = some q ∧ 0 ≤ q ∧ q ≤ 3 := by
  have h := calculateHeadingChanges_spec 3 (by norm_num)
    [{ latitude := 0, longitude := 0, timestamp := 0, speed := none,
       speedKmh := none, heading := some 0 },
     { latitude := 0, longitude := 0, timestamp := 0, speed := none,
       speedKmh := none, heading := some 1 }]
    (by
      intro s hs
      rcases List.mem_cons.mp hs with h | h
      · rw [h]; rfl
      · rw [List.mem_singleton.mp h]; rfl)
  exact ⟨by simpa using h.1, h.2.1⟩

theorem eq_filterMap_map_some (l : List (Option ℚ))
    (h : ∀ x ∈ l, x.isSome) : l = (l.filterMap id).map some := by
  induction l with
  | nil => rfl
  | cons x xs ih =>
    obtain ⟨v, hv⟩ := Option.isSome_iff_exists.mp
      (h x (List.mem_cons_self x xs))
    have hxs := ih (fun y hy => h y (List.mem_cons_of_mem x hy))
    rw [hv]
    simp only [List.filterMap_cons, id_eq, List.map_cons]
    exact congrArg (some v :: ·) hxs

theorem foldl_jadd_map_some (l : List ℚ) (a : ℚ) :
    (l.map some).foldl jadd (some a) = some (a + l.sum) := by
  induction l generalizing a with
  | nil => simp
  | cons x xs ih =>
    show (xs.map some).foldl jadd (jadd (some a) (some x)) = _
    rw [show jadd (some a) (some x) = some (a + x) from rfl, ih]
    simp [add_assoc]

theorem jsum_map_some (l : List ℚ) (hne : l ≠ []) :
    jsum (l.map some) = some l.sum := by
  cases l with
  | nil => exact absurd rfl hne
  | cons x xs =>
    show (xs.map some).foldl jadd (some x) = _
    rw [foldl_jadd_map_some]
    simp

theorem foldl_var_map_some (m : ℚ) (l : List ℚ) (a : ℚ) :
    (l.map some).foldl
      (fun s c => jadd s ((jsub c (some m)).map (fun d => d * d))) (some a)
      = some (a + (l.map (fun c => (c - m) * (c - m))).sum) := by
  induction l generalizing a with
  | nil => simp
  | cons x xs ih =>
    show (xs.map some).foldl _
      (jadd (some a) ((jsub (some x) (some m)).map (fun d => d * d))) = _
    rw [show jadd (some a) ((jsub (some x) (some m)).map (fun d => d * d))
      = some (a + (x - m) * (x - m)) from rfl, ih]
    simp [add_assoc]

/-- C3 (amended): `headingChangeClassify` returns `null` exactly for
trajectories with fewer than 2 samples — the guard counts samples, not
samples with heading data (with ≥ 2 samples but a missing heading the
NaN statistics route to `uncertain`; see the counterexample).  For
trajectories of at least 2 samples all carrying headings it returns
`fixed-route` when the mean heading change (degrees) is < 3 and the
population standard deviation is < 15 (variance < 225), `variable-route`
when the mean is > 5 or the standard deviation is > 20 (variance >
400), and `uncertain` in the remaining dead zone. -/
theorem headingChangeClassify_spec (pi : ℚ) (hpi : 0 < pi)
    (gps : List Sample) :
    (gps.length < 2 → headingChangeClassify pi gps = none) ∧
    (2 ≤ gps.length → (∀ s ∈ gps, s.heading.isSome) →
      headingChangeClassify pi gps =
        some (if headingMeanDeg pi gps < 3 ∧ headingVarDeg pi gps < 225
          then "fixed-route"
          else if 5 < headingMeanDeg pi gps ∨ 400 < headingVarDeg pi gps
          then "variable-route"
          else "uncertain")) := by
  constructor
  · intro hlt
    unfold headingChangeClassify
    rw [if_pos hlt]
  · intro h2 hh
    have hnot2 : ¬ gps.length < 2 := by omega
    have hsomeall : ∀ x ∈ calculateHeadingChanges pi gps, x.isSome := by
      intro x hx
      obtain ⟨q, hq, _, _⟩ := calculateHeadingChanges_mem pi hpi gps hh x hx
      rw [hq]
      rfl
    have hds := eq_filterMap_map_some (calculateHeadingChanges pi gps) hsomeall
    set ds := (calculateHeadingChanges pi gps).filterMap id with hdsdef
    have hchclen := calculateHeadingChanges_length pi gps
    have hdslen : ds.length = gps.length - 1 := by
      have hl := congrArg List.length hds
      rw [List.length_map] at hl
      omega
    have hdsne : ds ≠ [] := by
      intro h
      rw [h] at hdslen
      simp at hdslen
      omega
    have hdsf : headingDegSeries pi gps = ds.map (fun c => c * 180 / pi) := by
      unfold headingDegSeries
      rw [← hdsdef]
    have hdsfne : ds.map (fun c => c * 180 / pi) ≠ [] := by
      simpa [List.map_eq_nil] using hdsne
    have hdegs : ((ds.map some).map (Option.map (fun c => c * 180 / pi)))
        = (ds.map (fun c => c * 180 / pi)).map some := by
      simp [List.map_map, Function.comp]
    have hmeanval : headingMeanDeg pi gps
        = (ds.map (fun c => c * 180 / pi)).sum
          / ((ds.map (fun c => c * 180 / pi)).length : ℚ) := by
      unfold headingMeanDeg
      rw [hdsf]
    have hvarval : headingVarDeg pi gps
        = ((ds.map (fun c => c * 180 / pi)).map
            (fun c => (c - headingMeanDeg pi gps)
              * (c - headingMeanDeg pi gps))).sum
          / ((ds.map (fun c => c * 180 / pi)).length : ℚ) := by
      unfold headingVarDeg
      rw [hdsf]
    have hv0 : 0 ≤ headingVarDeg pi gps := by
      rw [hvarval]
      apply div_nonneg
      · apply List.sum_nonneg
        intro x hx
        obtain ⟨c, _, hc⟩ := List.mem_map.mp hx
        rw [← hc]
        exact mul_self_nonneg _
      · positivity
    unfold headingChangeClassify
    rw [if_neg hnot2]
    simp only [hds, hdegs, List.length_map]
    rw [if_neg (by simpa [List.length_eq_zero] using hdsne)]
    simp only [List.length_map] at hmeanval hvarval
    rw [jsum_map_some _ hdsfne]
    simp only [Option.map_some']
    simp only [foldl_var_map_some]
    simp only [Option.map_some', zero_add]
    simp only [← hmeanval]
    simp only [← hvarval]
    simp only [jlt, jgt, jsqrtLt, jsqrtGt]
    have h15 : (15 : ℚ) * 15 = 225 := by norm_num
    have h20 : (20 : ℚ) * 20 = 400 := by norm_num
    simp only [h15, h20, Bool.and_eq_true, Bool.or_eq_true,
      decide_eq_true_eq, and_iff_right hv0]
    split_ifs <;> rfl

/-- C3 counterexample: a 2-sample trajectory with only ONE sample
carrying heading data (fewer than 2 samples with heading data, so the
claim demands `null`): the missing heading produces a NaN change, every
threshold comparison on the NaN statistics is false, and the source
returns `'uncertain'`, not `null`.  The result does not depend on the
value of `pi` (no numeric normalization is reached); it is stated at the
rational 3. -/
theorem headingChange_missing_heading_counterexample :
    headingChangeClassify 3
      [{ latitude := 0, longitude := 0, timestamp := 0, speed := none,
         speedKmh := none, heading := none },
       { latitude := 0, longitude := 0, timestamp := 0, speed := none,
         speedKmh := none, heading := some 0 }] = some "uncertain" := by
  rfl

/-- Witness for C3 (amended) at two samples with headings 0 and 1
radians and `pi = 3`: one change of 1 rad = 60°, mean 60 > 5, so
`variable-route`. -/
theorem headingChangeClassify_spec_witness :
    headingChangeClassify 3
      [{ latitude := 0, longitude := 0, timestamp := 0, speed := none,
         speedKmh := none, heading := some 0 },
       { latitude := 0, longitude := 0, timestamp := 0, speed := none,
         speedKmh := none, heading := some 1 }] = some "variable-route" := by
  have h := (headingChangeClassify_spec 3 (by norm_num)
    [{ latitude := 0, longitude := 0, timestamp := 0, speed := none,
       speedKmh := none, heading := some 0 },
     { latitude := 0, longitude := 0, timestamp := 0, speed := none,
       speedKmh := none, heading := some 1 }]).2
    (by simp)
    (by
      intro s hs
      rcases List.mem_cons.mp hs with h | h
      · rw [h]; rfl
      · rw [List.mem_singleton.mp h]; rfl)
  rw [h]
  have hnorm : jsNormalizeRad 3 (1 : ℚ) = 1 := by
    unfold jsNormalizeRad
    rw [normLoopDown, dif_neg (by norm_num), normLoopUp,
      dif_neg (by norm_num)]
  norm_num [headingMeanDeg, headingVarDeg, headingDegSeries,
    calculateHeadingChanges, hcStep, hnorm, List.filterMap_cons,
    abs_one]
